import Mathlib

/-!
# lab-track: configuration assembly and the file output

A shallow embedding of `pkg/outputs/file/file.go` and `pkg/config/config.go`.

* Go `[]byte` is a list of byte values, a Go `error` is `Option String`
  (`none` is `nil`, `some msg` is an error whose `Error()` text is `msg`).
* Calls to collaborators outside the two files (the operating system, the
  serializer, the logger, the plugin registry, the TOML library) go through an
  explicit interface record, and every function returns, next to its Go result,
  the list of collaborator calls it made, in the order it made them.
* Pointer receivers become explicit state passing: a method returns the updated
  receiver.
-/

set_option autoImplicit false

namespace LabTrack

/-! ## Part 1: `pkg/outputs/file/file.go` -/

/-- Go `[]byte`: one list element per byte. -/
abbrev Bytes := List Nat

/-- The `*os.File` values the file output can hold: the process-wide `os.Stdout`, or
the fresh file object returned by the `id`-th successful `os.Create`. -/
inductive Handle where
  | stdout
  | created (id : Nat)
  deriving DecidableEq, Repr

/-- The operating system as seen by the file output, over a world state `W`:
`os.Create`, the raw write of an `*os.File`, and `(*os.File).Close`. -/
structure Sys (W : Type) where
  /-- `os.Create(path)`: the identifier of the new file object, or the error. -/
  create : W → String → Except String Nat × W
  /-- The raw write on a file object: bytes written and error. -/
  write : W → Handle → Bytes → (Nat × Option String) × W
  /-- `(*os.File).Close`. -/
  close : W → Handle → Option String × W

/-- `(*os.File).Write`: the raw write, with `io.ErrShortWrite` reported whenever fewer
bytes than requested were written and the raw write reported nothing. -/
def osWrite {W : Type} (sys : Sys W) (w : W) (h : Handle) (p : Bytes) :
    (Nat × Option String) × W :=
  let r := sys.write w h p
  let n := min r.1.1 p.length
  match r.1.2 with
  | some e => ((n, some e), r.2)
  | none => if n ≠ p.length then ((n, some "short write"), r.2) else ((n, none), r.2)

/-- `bufio.defaultBufSize`, the buffer size `bufio.NewWriter` uses. -/
def defaultBufSize : Nat := 4096

/-- A `*bufio.Writer`: the wrapped file, the buffered bytes `buf[0:n]` and the sticky
error. -/
structure BufWriter where
  wr : Handle
  buf : Bytes
  err : Option String
  deriving DecidableEq, Repr

/-- `bufio.NewWriter(fd)`. -/
def NewWriter (fd : Handle) : BufWriter := ⟨fd, [], none⟩

/-- `(*bufio.Writer).Available`. -/
def BufWriter.Available (b : BufWriter) : Nat := defaultBufSize - b.buf.length

/-- `(*bufio.Writer).Buffered`. -/
def BufWriter.Buffered (b : BufWriter) : Nat := b.buf.length

/-- `(*bufio.Writer).Flush`: the only place, besides an overflowing `Write`, where
buffered bytes are handed to the wrapped file. -/
def BufWriter.Flush {W : Type} (sys : Sys W) (w : W) (b : BufWriter) :
    Option String × BufWriter × W :=
  match b.err with
  | some e => (some e, b, w)
  | none =>
    if b.buf.length = 0 then (none, b, w)
    else
      let r := osWrite sys w b.wr b.buf
      match r.1.2 with
      | some e => (some e, { b with buf := b.buf.drop r.1.1, err := some e }, r.2)
      | none => (none, { b with buf := [] }, r.2)

/-- The loop `for len(p) > b.Available() && b.err == nil` of `(*bufio.Writer).Write`,
run for at most `fuel` iterations; returns the bytes still to copy, the writer and the
world. -/
def bufWriteLoop {W : Type} (sys : Sys W) : Nat → W → BufWriter → Bytes → Bytes × BufWriter × W
  | 0, w, b, p => (p, b, w)
  | fuel + 1, w, b, p =>
    if p.length > b.Available ∧ b.err = none then
      if b.Buffered = 0 then
        let r := osWrite sys w b.wr p
        bufWriteLoop sys fuel r.2 { b with err := r.1.2 } (p.drop r.1.1)
      else
        let n := min b.Available p.length
        let r := BufWriter.Flush sys w { b with buf := b.buf ++ p.take n }
        bufWriteLoop sys fuel r.2.2 r.2.1 (p.drop n)
    else (p, b, w)

/-- `(*bufio.Writer).Write`, returning the error only (the byte count is nil-error
equivalent to `len(p)`). The loop body runs at most twice: a direct write either takes
all of `p` or sets the sticky error, and a fill-and-flush leaves an empty buffer or
sets the sticky error. -/
def BufWriter.Write {W : Type} (sys : Sys W) (w : W) (b : BufWriter) (p : Bytes) :
    Option String × BufWriter × W :=
  let r := bufWriteLoop sys 2 w b p
  match r.2.1.err with
  | some e => (some e, r.2.1, r.2.2)
  | none => (none, { r.2.1 with buf := r.2.1.buf ++ r.1 }, r.2.2)

/-- The `io.Writer` values `Connect` builds: `os.Stdout` itself, or a `*bufio.Writer`
around a created file. -/
inductive Writer where
  | osFile (h : Handle)
  | bufio (b : BufWriter)
  deriving DecidableEq, Repr

/-- The `Write` method of one underlying writer. -/
def Writer.Write {W : Type} (sys : Sys W) (w : W) : Writer → Bytes → Option String × Writer × W
  | .osFile h, p =>
    let r := osWrite sys w h p
    (r.1.2, .osFile h, r.2)
  | .bufio b, p =>
    let r := b.Write sys w p
    (r.1, .bufio r.2.1, r.2.2)

/-- `(*io.multiWriter).Write`: the bytes go to every underlying writer in order; the
first failing writer stops the fan-out and its error is returned. Its check
`n != len(p)` never fires here: both kinds of underlying writer report a short write
as an error themselves. -/
def multiWrite {W : Type} (sys : Sys W) : W → List Writer → Bytes → Option String × List Writer × W
  | w, [], _ => (none, [], w)
  | w, wr :: rest, p =>
    let r := wr.Write sys w p
    match r.1 with
    | some e => (some e, r.2.1 :: rest, r.2.2)
    | none =>
      let r2 := multiWrite sys r.2.2 rest p
      (r2.1, r.2.1 :: r2.2.1, r2.2.2)

/-- A `serializers.Serializer`: `Serialize(view)` returns bytes and an error; it may read
and change the world. -/
structure Serializer (W View : Type) where
  Serialize : W → View → (Bytes × Option String) × W

/-- The `File` output. `writer` is `none` while the Go field is nil and
`some writers` once it holds `io.MultiWriter(writers...)`. -/
structure File (W View : Type) where
  Files : List String
  writer : Option (List Writer)
  closers : List Handle
  serializer : Option (Serializer W View)

/-- The registry constructor `&File{}`, with `Files` as later filled in from the
configuration. -/
def File.fresh {W View : Type} (files : List String) : File W View :=
  ⟨files, none, [], none⟩

/-- `SetSerializer`. -/
def File.SetSerializer {W View : Type} (f : File W View) (serializer : Serializer W View) :
    File W View :=
  { f with serializer := some serializer }

/-- The calls `Connect` makes: `os.Create` on a path, with the file object and the error
it returned. -/
inductive ConnectCall where
  | Create (path : String) (fd : Option Nat) (err : Option String)
  deriving DecidableEq, Repr

/-- The `for _, file := range f.Files` loop of `Connect`, on the local `writers` and on
`f.closers`. -/
def connectLoop {W : Type} (sys : Sys W) :
    W → List String → List Writer → List Handle →
      Option String × List Writer × List Handle × W × List ConnectCall
  | w, [], writers, closers => (none, writers, closers, w, [])
  | w, file :: rest, writers, closers =>
    if file = "stdout" then
      connectLoop sys w rest (writers ++ [Writer.osFile Handle.stdout]) closers
    else
      let r := sys.create w file
      match r.1 with
      | .error e => (some e, writers, closers, r.2, [ConnectCall.Create file none (some e)])
      | .ok fd =>
        let of := NewWriter (Handle.created fd)
        let r2 := connectLoop sys r.2 rest (writers ++ [Writer.bufio of])
          (closers ++ [Handle.created fd])
        (r2.1, r2.2.1, r2.2.2.1, r2.2.2.2.1, ConnectCall.Create file (some fd) none :: r2.2.2.2.2)

/-- `File.Connect`. -/
def File.Connect {W View : Type} (sys : Sys W) (w : W) (f : File W View) :
    Option String × File W View × W × List ConnectCall :=
  let files := if f.Files.length = 0 then ["stdout"] else f.Files
  let r := connectLoop sys w files [] f.closers
  match r.1 with
  | some e => (some e, { f with Files := files, closers := r.2.2.1 }, r.2.2.2.1, r.2.2.2.2)
  | none =>
    (none, { f with Files := files, closers := r.2.2.1, writer := some r.2.1 },
      r.2.2.2.1, r.2.2.2.2)

/-- The loop of `Close`, with the local `err`; the calls are the closers closed, each
with the result of its `Close`. -/
def closeLoop {W : Type} (sys : Sys W) :
    W → Option String → List Handle → Option String × W × List (Handle × Option String)
  | w, err, [] => (err, w, [])
  | w, err, c :: rest =>
    let r := sys.close w c
    let err1 := match r.1 with
      | some e => some e
      | none => err
    let r2 := closeLoop sys r.2 err1 rest
    (r2.1, r2.2.1, (c, r.1) :: r2.2.2)

/-- `File.Close`. -/
def File.Close {W View : Type} (sys : Sys W) (w : W) (f : File W View) :
    Option String × W × List (Handle × Option String) :=
  closeLoop sys w none f.closers

/-- The calls `Write` makes: `Serialize` on a view with what it returned, a debug log
line, and `Write` on the fan-out writer with the bytes passed and the error returned. -/
inductive WriteCall (View : Type) where
  | Serialize (view : View) (b : Bytes) (err : Option String)
  | Log (msg : String)
  | Write (b : Bytes) (err : Option String)
  deriving DecidableEq, Repr

/-- The `for _, view := range views` loop of `Write`, with the local `writeErr`. -/
def writeLoop {W View : Type} (sys : Sys W) (ser : Serializer W View) :
    W → List Writer → Option String → List View →
      Option String × List Writer × W × List (WriteCall View)
  | w, ws, writeErr, [] => (writeErr, ws, w, [])
  | w, ws, writeErr, view :: rest =>
    let s := ser.Serialize w view
    let logged : List (WriteCall View) := match s.1.2 with
      | some e => [WriteCall.Log ("could not serialize page view: " ++ e)]
      | none => []
    let r := multiWrite sys s.2 ws s.1.1
    let writeErr1 := match r.1 with
      | some e => some ("E! [outputs.file] failed to write message: " ++ e)
      | none => writeErr
    let r2 := writeLoop sys ser r.2.2 r.2.1 writeErr1 rest
    (r2.1, r2.2.1, r2.2.2.1,
      WriteCall.Serialize view s.1.1 s.1.2 :: (logged ++ WriteCall.Write s.1.1 r.1 :: r2.2.2.2))

/-- `File.Write`, on the page views the batch points to. The result is `none` when the
Go code dereferences a nil serializer or a nil writer (a batch with at least one view on
a `File` without `SetSerializer` or without a successful `Connect`). -/
def File.Write {W View : Type} (sys : Sys W) (w : W) (f : File W View) (views : List View) :
    Option (Option String × File W View × W × List (WriteCall View)) :=
  match views with
  | [] => some (none, f, w, [])
  | _ :: _ =>
    match f.serializer, f.writer with
    | some ser, some ws =>
      let r := writeLoop sys ser w ws none views
      some (r.1, { f with writer := some r.2.1 }, r.2.2.1, r.2.2.2)
    | _, _ => none

/-! ### Reading a list of calls -/

/-- The views `Serialize` was called on, in call order. -/
def serializeCalls {View : Type} : List (WriteCall View) → List View
  | [] => []
  | WriteCall.Serialize v _ _ :: rest => v :: serializeCalls rest
  | _ :: rest => serializeCalls rest

/-- The `Serialize` calls, each with the view it was called on and the bytes and error it
returned, in call order. -/
def serializeLog {View : Type} : List (WriteCall View) → List (View × Bytes × Option String)
  | [] => []
  | WriteCall.Serialize v b e :: rest => (v, b, e) :: serializeLog rest
  | _ :: rest => serializeLog rest

/-- The byte strings the `Serialize` calls returned, failed calls included, in call
order. -/
def serializedBytes {View : Type} : List (WriteCall View) → List Bytes
  | [] => []
  | WriteCall.Serialize _ b _ :: rest => b :: serializedBytes rest
  | _ :: rest => serializedBytes rest

/-- The byte strings passed to the fan-out writer, in call order. -/
def writeCalls {View : Type} : List (WriteCall View) → List Bytes
  | [] => []
  | WriteCall.Write b _ :: rest => b :: writeCalls rest
  | _ :: rest => writeCalls rest

/-- The errors the fan-out writer returned, one per call, in call order. -/
def writeResults {View : Type} : List (WriteCall View) → List (Option String)
  | [] => []
  | WriteCall.Write _ e :: rest => e :: writeResults rest
  | _ :: rest => writeResults rest

/-- The last non-nil error of a list of results, `none` when every result is nil. -/
def lastFailure : List (Option String) → Option String
  | [] => none
  | r :: rest =>
    match lastFailure rest with
    | some e => some e
    | none => r

/-- The closable file behind an underlying writer: the file a `*bufio.Writer` wraps;
`os.Stdout` used directly has none. -/
def Writer.closer : Writer → Option Handle
  | .bufio b => some b.wr
  | .osFile _ => none

/-- `Opens sys w files ws w1`: the loop of `Connect`, run over the entries `files` from the
world `w`, gets a file from every `os.Create` it calls; `ws` are the writers it builds,
one per entry in order (`os.Stdout` itself for `"stdout"`, an empty `*bufio.Writer` around
the file `os.Create` returned for any other entry), and `w1` is the world after the
calls. -/
inductive Opens {W : Type} (sys : Sys W) : W → List String → List Writer → W → Prop where
  | nil (w : W) : Opens sys w [] [] w
  | stdout {w w1 : W} {rest : List String} {ws : List Writer} :
      Opens sys w rest ws w1 →
      Opens sys w ("stdout" :: rest) (Writer.osFile Handle.stdout :: ws) w1
  | create {w w1 : W} {file : String} {fd : Nat} {rest : List String} {ws : List Writer} :
      file ≠ "stdout" → (sys.create w file).1 = .ok fd →
      Opens sys (sys.create w file).2 rest ws w1 →
      Opens sys w (file :: rest) (Writer.bufio (NewWriter (Handle.created fd)) :: ws) w1

/-- The world after `Close` has been called on each of `cs`, in order. -/
def worldAfterClose {W : Type} (sys : Sys W) (w : W) (cs : List Handle) : W :=
  cs.foldl (fun w c => (sys.close w c).2) w

/-- One iteration of the loop of `Write`, seen from the collaborators: `Serialize` is
called on `view` in the world `st.1`, then the fan-out writer over the writers `st.2` is
called with the bytes `Serialize` returned; the world and the writers after both calls. -/
def writeStep {W View : Type} (sys : Sys W) (ser : Serializer W View) (st : W × List Writer)
    (view : View) : W × List Writer :=
  ((multiWrite sys (ser.Serialize st.1 view).2 st.2 (ser.Serialize st.1 view).1.1).2.2,
    (multiWrite sys (ser.Serialize st.1 view).2 st.2 (ser.Serialize st.1 view).1.1).2.1)

/-- The error the fan-out writer returns in that iteration. -/
def writeOutcome {W View : Type} (sys : Sys W) (ser : Serializer W View) (st : W × List Writer)
    (view : View) : Option String :=
  (multiWrite sys (ser.Serialize st.1 view).2 st.2 (ser.Serialize st.1 view).1.1).1

/-- The world and the writers after the iterations for `views`, in order. -/
def stateAfterWrite {W View : Type} (sys : Sys W) (ser : Serializer W View)
    (st : W × List Writer) (views : List View) : W × List Writer :=
  views.foldl (writeStep sys ser) st

/-- The file objects returned by the successful `os.Create` calls, in call order. -/
def createdHandles : List ConnectCall → List Handle
  | [] => []
  | ConnectCall.Create _ (some fd) _ :: rest => Handle.created fd :: createdHandles rest
  | ConnectCall.Create _ none _ :: rest => createdHandles rest

/-! ### A file system to run the file output on -/

/-- A file system with regular files: the content of each path, the file objects
created so far (object `id` is entry `id`: its path and whether it is still open) and
the bytes written to standard output. -/
structure Disk where
  files : List (String × Bytes)
  opened : List (String × Bool)
  out : Bytes
  deriving DecidableEq, Repr

/-- The empty file system. -/
def Disk.empty : Disk := ⟨[], [], []⟩

/-- Replace the content stored under `path`. -/
def Disk.store (files : List (String × Bytes)) (path : String) (content : Bytes) :
    List (String × Bytes) :=
  (path, content) :: files.filter (fun e => e.1 ≠ path)

/-- Reopen and read `path`: its content, `none` when no such file exists. -/
def Disk.read (d : Disk) (path : String) : Option Bytes :=
  d.files.lookup path

/-- The operating system over `Disk`: `os.Create` creates or truncates the file (and
fails on the empty path), a write on an open created file appends to its path, a write
on standard output appends to `out`, and `Close` marks the file object closed; using a
closed or unknown file object is an error. -/
def Disk.sys : Sys Disk where
  create d path :=
    if path = "" then (.error "open : no such file or directory", d)
    else
      (.ok d.opened.length,
        { d with files := Disk.store d.files path [], opened := d.opened ++ [(path, true)] })
  write d h p :=
    match h with
    | .stdout => ((p.length, none), { d with out := d.out ++ p })
    | .created id =>
      match d.opened.get? id with
      | some (path, true) =>
        ((p.length, none),
          { d with files := Disk.store d.files path ((d.files.lookup path).getD [] ++ p) })
      | _ => ((0, some "file already closed"), d)
  close d h :=
    match h with
    | .stdout => (none, d)
    | .created id =>
      match d.opened.get? id with
      | some (path, true) => (none, { d with opened := d.opened.set id (path, false) })
      | _ => (some "file already closed", d)

/-- A serializer over page views numbered by `Nat`: view `v` serializes to the single
byte `v`, and view `2` fails, returning no bytes and an error. -/
def failOnTwo : Serializer Disk Nat :=
  ⟨fun d v => if v = 2 then (([], some "unsupported view"), d) else (([v], none), d)⟩

/-- Like `failOnTwo`, but the failing call returns the byte `63` it had produced so far
next to the error. -/
def partialOnTwo : Serializer Disk Nat :=
  ⟨fun d v => if v = 2 then (([63], some "unsupported view"), d) else (([v], none), d)⟩

/-- A serializer that never fails: view `v` serializes to the single byte `v`. -/
def oneByte : Serializer Disk Nat :=
  ⟨fun d v => (([v], none), d)⟩

/-- One life cycle of a file output: `Connect`, then, if it succeeded, one `Write` of
`views`, then `Close`. Returns the three errors and the final world; `none` when
`Write` dereferences nil. -/
def connectWriteClose {W View : Type} (sys : Sys W) (w : W) (f : File W View)
    (views : List View) : Option ((Option String × Option String × Option String) × W) :=
  let c := f.Connect sys w
  match c.1 with
  | some e => some ((some e, none, none), c.2.2.1)
  | none =>
    match File.Write sys c.2.2.1 c.2.1 views with
    | none => none
    | some r =>
      let k := File.Close sys r.2.2.1 r.2.1
      some ((none, r.1, k.1), k.2.1)

/-! ## Part 2: `pkg/config/config.go` -/

/-- An `ast.Value` of the TOML library: a string, or any other kind of value (integer,
float, boolean, datetime, array) kept by its source text. -/
inductive Value where
  | string (value : String)
  | other (raw : String)
  deriving DecidableEq, Repr

mutual
/-- An `*ast.Table`: the line it was declared on and its `Fields` map, kept as an
association list with distinct keys. -/
inductive Table where
  | mk (Line : Nat) (Fields : List (String × Node))
/-- What a `Fields` map holds: a `*ast.Table`, a `[]*ast.Table` (array of tables, in
declaration order) or a `*ast.KeyValue`. -/
inductive Node where
  | table (t : Table)
  | tables (ts : List Table)
  | keyValue (key : String) (value : Value)
end

/-- The `Line` of a table. -/
def Table.Line : Table → Nat
  | .mk line _ => line

/-- The `Fields` of a table. -/
def Table.Fields : Table → List (String × Node)
  | .mk _ fields => fields

/-- Go `delete(tbl.Fields, key)`. -/
def Table.delete : Table → String → Table
  | .mk line fields, key => .mk line (fields.filter (fun e => e.1 ≠ key))

/-- Modelled from the spec: the `Tracker` type is declared outside `config.go`; it has the
`TrackingID` and `Badge` strings `config.go` reads, and `Other` stands for its remaining
fields. `{}` is the zero value `Tracker{}`. -/
structure Tracker where
  TrackingID : String := ""
  Badge : String := ""
  Other : List (String × String) := []
  deriving DecidableEq, Repr

/-- `GlobalConfig`: the geo-IP database path and the tags map. -/
structure GlobalConfig where
  GeoIPDatabase : String := ""
  Tags : List (String × String) := []
  deriving DecidableEq, Repr

/-- `Config`, over the type `Out` of output instances. -/
structure Config (Out : Type) where
  Global : GlobalConfig
  Trackers : List Tracker
  Outputs : List Out
  deriving DecidableEq, Repr

/-- `NewConfig`. -/
def NewConfig {Out : Type} : Config Out :=
  { Global := { Tags := [] }, Trackers := [], Outputs := [] }

/-- `serializers.Config`, with the two fields `buildSerializer` sets; `{}` is the zero
value. -/
structure SerializerConfig where
  DataFormat : String := ""
  DataFormatTemplate : String := ""
  deriving DecidableEq, Repr

/-- The collaborators of `config.go`, over the types `Out` of output instances and `Ser`
of serializers. -/
structure Env (Out Ser : Type) where
  /-- The registry `outputs.Outputs`: the creator registered under a name. -/
  Outputs : String → Option (Unit → Out)
  /-- The type switch `output.(type)`: for an output that implements
  `serializers.SerializerOutput`, its `SetSerializer`. -/
  asSerializerOutput : Out → Option (Ser → Out)
  /-- The factory `serializers.NewSerializer`. -/
  NewSerializer : SerializerConfig → Except String Ser
  /-- `toml.UnmarshalTable(table, output)`. -/
  unmarshalOutput : Table → Out → Option String × Out
  /-- `toml.UnmarshalTable(table, &tracker)`. -/
  unmarshalTracker : Table → Tracker → Option String × Tracker
  /-- `toml.UnmarshalTable(subTable, &c.Global)`. -/
  unmarshalGlobal : Table → GlobalConfig → Option String × GlobalConfig
  /-- The badge validator `validateBadgeSyntaxe`, defined outside `config.go`. -/
  validateBadgeSyntaxe : String → Bool
  /-- The order in which `range` visits the entries of a `Fields` map: Go leaves it
  unspecified, it is some permutation of the entries. -/
  rangeOrder : List (String × Node) → List (String × Node)
  /-- `os.Open` followed by `ioutil.ReadAll`. -/
  ReadAll : String → Except String String
  /-- `os.ExpandEnv`. -/
  ExpandEnv : String → String
  /-- `toml.Parse`. -/
  Parse : String → Except String Table

/-- The calls `config.go` makes to its collaborators that are recorded: a registry
creator, and the serializer factory with its argument. -/
inductive Call where
  | creator (name : String)
  | NewSerializer (c : SerializerConfig)
  deriving DecidableEq, Repr

/-- `buildSerializer`: the factory result, the table after the two `delete`s, and the
calls made. -/
def buildSerializer {Out Ser : Type} (env : Env Out Ser) (_name : String) (tbl : Table) :
    Except String Ser × Table × List Call :=
  let c0 : SerializerConfig := {}
  let c1 : SerializerConfig :=
    match tbl.Fields.lookup "data_format" with
    | some (Node.keyValue _ (Value.string str)) => { c0 with DataFormat := str }
    | _ => c0
  let c2 : SerializerConfig :=
    match tbl.Fields.lookup "data_format_template" with
    | some (Node.keyValue _ (Value.string str)) => { c1 with DataFormatTemplate := str }
    | _ => c1
  let c3 : SerializerConfig :=
    if c2.DataFormat = "" then { c2 with DataFormat := "json" } else c2
  let tbl1 := (tbl.delete "data_format").delete "data_format_template"
  (env.NewSerializer c3, tbl1, [Call.NewSerializer c3])

/-- `Config.addOutput`. -/
def Config.addOutput {Out Ser : Type} (env : Env Out Ser) (c : Config Out) (name : String)
    (table : Table) : Option String × Config Out × List Call :=
  match env.Outputs name with
  | none => (some ("undefined but requested output: " ++ name), c, [])
  | some creator =>
    let output := creator ()
    let s : Option String × Out × Table × List Call :=
      match env.asSerializerOutput output with
      | some SetSerializer =>
        let b := buildSerializer env name table
        match b.1 with
        | .error err => (some err, output, b.2.1, b.2.2)
        | .ok serializer => (none, SetSerializer serializer, b.2.1, b.2.2)
      | none => (none, output, table, [])
    match s.1 with
    | some err => (some err, c, Call.creator name :: s.2.2.2)
    | none =>
      let u := env.unmarshalOutput s.2.2.1 s.2.1
      match u.1 with
      | some err => (some err, c, Call.creator name :: s.2.2.2)
      | none => (none, { c with Outputs := c.Outputs ++ [u.2] }, Call.creator name :: s.2.2.2)

/-- `Config.addTracker`. -/
def Config.addTracker {Out Ser : Type} (env : Env Out Ser) (c : Config Out) (table : Table) :
    Option String × Config Out :=
  let r := env.unmarshalTracker table {}
  match r.1 with
  | some err => (some err, c)
  | none =>
    let tracker := r.2
    if tracker.Badge = "" then
      (none, { c with Trackers := c.Trackers ++ [{ tracker with Badge := "ZerØ|analytics|#00a5da" }] })
    else if env.validateBadgeSyntaxe tracker.Badge = false then
      (some ("invalid badge format: expecting \"<title>|<label>|<color>\" got: " ++ tracker.Badge),
        c)
    else (none, { c with Trackers := c.Trackers ++ [tracker] })

/-- The loop `for _, t := range pluginSubTable` of `parseOutputsTable`. -/
def addOutputs {Out Ser : Type} (env : Env Out Ser) (pluginName : String) :
    Config Out → List Table → Option String × Config Out × List Call
  | c, [] => (none, c, [])
  | c, t :: rest =>
    let r := c.addOutput env pluginName t
    match r.1 with
    | some err => (some ("error parsing " ++ pluginName ++ " array, " ++ err), r.2.1, r.2.2)
    | none =>
      let r2 := addOutputs env pluginName r.2.1 rest
      (r2.1, r2.2.1, r.2.2 ++ r2.2.2)

/-- The loop `for pluginName, pluginVal := range subTable.Fields` of `parseOutputsTable`,
over the entries in the order `range` visits them. -/
def rangeOutputs {Out Ser : Type} (env : Env Out Ser) :
    Config Out → List (String × Node) → Option String × Config Out × List Call
  | c, [] => (none, c, [])
  | c, (pluginName, pluginVal) :: rest =>
    match pluginVal with
    | Node.tables pluginSubTable =>
      let r := addOutputs env pluginName c pluginSubTable
      match r.1 with
      | some err => (some err, r.2.1, r.2.2)
      | none =>
        let r2 := rangeOutputs env r.2.1 rest
        (r2.1, r2.2.1, r.2.2 ++ r2.2.2)
    | _ => (some ("unsupported output config format: " ++ pluginName), c, [])

/-- `Config.parseOutputsTable`. -/
def Config.parseOutputsTable {Out Ser : Type} (env : Env Out Ser) (c : Config Out)
    (tbl : Table) : Option String × Config Out × List Call :=
  match tbl.Fields.lookup "outputs" with
  | some val =>
    match val with
    | Node.table subTable => rangeOutputs env c (env.rangeOrder subTable.Fields)
    | _ => (some "invalid configuration, error parsing outputs table", c, [])
  | none => (none, c, [])

/-- The loop `for _, trackerTable := range subTable` of `parseTrackersTable`. -/
def addTrackers {Out Ser : Type} (env : Env Out Ser) :
    Config Out → List Table → Option String × Config Out
  | c, [] => (none, c)
  | c, trackerTable :: rest =>
    let r := c.addTracker env trackerTable
    match r.1 with
    | some err => (some ("error parsing trackers array, " ++ err), r.2)
    | none => addTrackers env r.2 rest

/-- `Config.parseTrackersTable`. -/
def Config.parseTrackersTable {Out Ser : Type} (env : Env Out Ser) (c : Config Out)
    (tbl : Table) : Option String × Config Out :=
  match tbl.Fields.lookup "trackers" with
  | some val =>
    match val with
    | Node.tables subTable => addTrackers env c subTable
    | _ => (some "invalid configuration, error parsing trackers table", c)
  | none => (none, c)

/-- `Config.parseGlobalTable`. The unmarshaller writes into `c.Global` in place, so what
it wrote stays in `c` also when it fails. -/
def Config.parseGlobalTable {Out Ser : Type} (env : Env Out Ser) (c : Config Out)
    (tbl : Table) : Option String × Config Out :=
  match tbl.Fields.lookup "global" with
  | some val =>
    match val with
    | Node.table subTable =>
      let r := env.unmarshalGlobal subTable c.Global
      match r.1 with
      | some err => (some ("error parsing global table: " ++ err), { c with Global := r.2 })
      | none => (none, { c with Global := r.2 })
    | _ => (some "invalid configuration, error parsing global table", c)
  | none => (none, c)

/-- `Config.LoadConfig`. -/
def Config.LoadConfig {Out Ser : Type} (env : Env Out Ser) (c : Config Out) (path : String) :
    Option String × Config Out × List Call :=
  match env.ReadAll path with
  | .error err => (some err, c, [])
  | .ok data =>
    match env.Parse (env.ExpandEnv data) with
    | .error err => (some err, c, [])
    | .ok tbl =>
      let g := c.parseGlobalTable env tbl
      match g.1 with
      | some err => (some err, g.2, [])
      | none =>
        let t := g.2.parseTrackersTable env tbl
        match t.1 with
        | some err => (some err, t.2, [])
        | none => t.2.parseOutputsTable env tbl

/-! ### Reading an outputs section, and a concrete set of collaborators -/

/-- The element tables of an outputs section, each with its plugin name, in the order in
which `parseOutputsTable` processes them: entry by entry as `range` visits the entries,
and inside one array of tables in slice order. -/
def elementTables : List (String × Node) → List (String × Table)
  | [] => []
  | (name, Node.tables ts) :: rest => ts.map (fun t => (name, t)) ++ elementTables rest
  | _ :: rest => elementTables rest

/-- The output instance `o` is the one `addOutput` appends for the element table `e.2`
declared under the plugin name `e.1`. -/
def builtFrom {Out Ser : Type} (env : Env Out Ser) (o : Out) (e : String × Table) : Prop :=
  ((NewConfig : Config Out).addOutput env e.1 e.2).1 = none ∧
    ((NewConfig : Config Out).addOutput env e.1 e.2).2.1.Outputs = [o]

/-- Modelled from the spec: `validateBadgeSyntaxe` is defined outside `config.go`. The
spec (4.4): the badge matches `<title>|<label>|<color>` when it has "exactly two `|`
separators producing exactly three segments"; segments may be empty. -/
def validateBadgeSyntaxe (badge : String) : Bool :=
  badge.toList.count '|' == 2

/-- The string stored under `key` in a table, `""` when there is none. -/
def stringField (t : Table) (key : String) : String :=
  match t.Fields.lookup key with
  | some (Node.keyValue _ (Value.string s)) => s
  | _ => ""

/-- An output instance that records the plugin it was created for, the data format of the
serializer it was given and the line of the element table it was filled from. -/
structure DemoOutput where
  plugin : String
  format : String
  line : Nat
  deriving DecidableEq, Repr

/-- Collaborators to run `config.go` on: plugins `"file"` (accepts a serializer) and
`"http"` (does not) are registered; the factory knows the format `"json"` only; the
unmarshallers copy `tracking_id`, `badge` and `geo_ip_database`; every path reads and
parses to the document `doc`; `range` visits map entries in the order `order` gives. -/
def demoEnv (doc : Table) (order : List (String × Node) → List (String × Node)) :
    Env DemoOutput String where
  Outputs name :=
    if name = "file" ∨ name = "http" then some (fun _ => ⟨name, "", 0⟩) else none
  asSerializerOutput o :=
    if o.plugin = "file" then some (fun s => { o with format := s }) else none
  NewSerializer cfg :=
    if cfg.DataFormat = "json" then .ok "json"
    else .error ("invalid data format: " ++ cfg.DataFormat)
  unmarshalOutput t o := (none, { o with line := t.Line })
  unmarshalTracker t tr :=
    (none, { tr with TrackingID := stringField t "tracking_id", Badge := stringField t "badge" })
  unmarshalGlobal t g := (none, { g with GeoIPDatabase := stringField t "geo_ip_database" })
  validateBadgeSyntaxe := validateBadgeSyntaxe
  rangeOrder := order
  ReadAll _ := .ok ""
  ExpandEnv s := s
  Parse _ := .ok doc

/-- A tracker element table declared on line `line` with the given tracking id and, when
`badge` is not empty, a badge. -/
def trackerTable (line : Nat) (id badge : String) : Table :=
  .mk line
    ((("tracking_id", Node.keyValue "tracking_id" (Value.string id)) :
        String × Node) ::
      (if badge = "" then [] else [("badge", Node.keyValue "badge" (Value.string badge))]))

/-- A document with two trackers: the first has no badge, the second a badge without
separators. -/
def twoTrackersDoc : Table :=
  .mk 0 [("trackers", Node.tables [trackerTable 1 "UA-1" "", trackerTable 4 "UA-2" "MyApp"])]

/-- A document whose outputs section declares `file` on line 2 and `http` on line 5. -/
def twoPluginsDoc : Table :=
  .mk 0 [("outputs", Node.table (.mk 1
    [("file", Node.tables [.mk 2 []]), ("http", Node.tables [.mk 5 []])]))]

/-- A document whose outputs section declares `file` on line 2, `http` on line 5 and
`file` again on line 8: the map holds `file` with two element tables and `http` with
one. -/
def interleavedDoc : Table :=
  .mk 0 [("outputs", Node.table (.mk 1
    [("file", Node.tables [.mk 2 [], .mk 8 []]), ("http", Node.tables [.mk 5 []])]))]

/-- A document whose outputs section declares `http` on line 2 and the unregistered
plugin `nonexistent` on line 5. -/
def nonexistentDoc : Table :=
  .mk 0 [("outputs", Node.table (.mk 1
    [("http", Node.tables [.mk 2 []]), ("nonexistent", Node.tables [.mk 5 []])]))]

/-! ## Theorems -/

/-! ### The loop of `bufio.Writer.Write` needs two iterations at most -/

theorem osWrite_ok_length {W : Type} (sys : Sys W) (w : W) (h : Handle) (p : Bytes)
    (hok : (osWrite sys w h p).1.2 = none) : (osWrite sys w h p).1.1 = p.length := by
  unfold osWrite at hok ⊢
  cases hr : (sys.write w h p).1.2 with
  | some e => simp [hr] at hok
  | none =>
    simp only [hr] at hok ⊢
    split
    · rename_i hne
      simp [hne] at hok
    · rename_i hne
      simpa using hne

theorem bufWriteLoop_done {W : Type} (sys : Sys W) (fuel : Nat) (w : W) (b : BufWriter)
    (p : Bytes) (h : ¬ (p.length > b.Available ∧ b.err = none)) :
    bufWriteLoop sys fuel w b p = (p, b, w) := by
  cases fuel with
  | zero => rfl
  | succ n => simp only [bufWriteLoop, h, if_false]

theorem bufWriteLoop_direct {W : Type} (sys : Sys W) (fuel : Nat) (w : W) (b : BufWriter)
    (p : Bytes) (h0 : b.Buffered = 0) :
    bufWriteLoop sys (fuel + 1) w b p = bufWriteLoop sys 1 w b p := by
  by_cases hc : p.length > b.Available ∧ b.err = none
  · simp only [bufWriteLoop, hc, h0, if_true, and_self]
    have hdone : ¬ ((p.drop (osWrite sys w b.wr p).1.1).length >
        BufWriter.Available { b with err := (osWrite sys w b.wr p).1.2 } ∧
        (osWrite sys w b.wr p).1.2 = none) := by
      intro hcon
      have hlen := osWrite_ok_length sys w b.wr p hcon.2
      have := hcon.1
      simp [hlen] at this
    rw [bufWriteLoop_done sys fuel _ _ _ hdone]
  · rw [bufWriteLoop_done sys _ w b p hc, bufWriteLoop_done sys _ w b p hc]

theorem flush_err_or_empty {W : Type} (sys : Sys W) (w : W) (b : BufWriter) :
    (BufWriter.Flush sys w b).2.1.err ≠ none ∨ (BufWriter.Flush sys w b).2.1.Buffered = 0 := by
  unfold BufWriter.Flush
  cases he : b.err with
  | some e => left; simp [he]
  | none =>
    simp only
    split
    · rename_i hz
      right
      simpa [BufWriter.Buffered] using hz
    · split
      · left; simp
      · right; simp [BufWriter.Buffered]

/-- More fuel than two iterations changes nothing: the loop of `bufio.Writer.Write` has
ended after two iterations. -/
theorem bufWriteLoop_fuel {W : Type} (sys : Sys W) (fuel : Nat) (w : W) (b : BufWriter)
    (p : Bytes) : bufWriteLoop sys (fuel + 2) w b p = bufWriteLoop sys 2 w b p := by
  by_cases hc : p.length > b.Available ∧ b.err = none
  · by_cases h0 : b.Buffered = 0
    · rw [bufWriteLoop_direct sys (fuel + 1) w b p h0, bufWriteLoop_direct sys 1 w b p h0]
    · have hstep : ∀ n, bufWriteLoop sys (n + 1) w b p =
          bufWriteLoop sys n
            (BufWriter.Flush sys w
              { b with buf := b.buf ++ p.take (min b.Available p.length) }).2.2
            (BufWriter.Flush sys w
              { b with buf := b.buf ++ p.take (min b.Available p.length) }).2.1
            (p.drop (min b.Available p.length)) := by
        intro n
        simp only [bufWriteLoop, hc, h0, if_true, if_false, and_self]
      rw [hstep (fuel + 1), hstep 1]
      rcases flush_err_or_empty sys w
          { b with buf := b.buf ++ p.take (min b.Available p.length) } with he | hz
      · have hdone : ∀ q : Bytes, ¬ (q.length >
            (BufWriter.Flush sys w
              { b with buf := b.buf ++ p.take (min b.Available p.length) }).2.1.Available ∧
            (BufWriter.Flush sys w
              { b with buf := b.buf ++ p.take (min b.Available p.length) }).2.1.err = none) :=
          fun q hq => he hq.2
        rw [bufWriteLoop_done sys _ _ _ _ (hdone _), bufWriteLoop_done sys _ _ _ _ (hdone _)]
      · exact bufWriteLoop_direct sys fuel _ _ _ hz
  · rw [bufWriteLoop_done sys _ w b p hc, bufWriteLoop_done sys _ w b p hc]

theorem lastFailure_eq_none (l : List (Option String)) :
    lastFailure l = none ↔ ∀ r ∈ l, r = none := by
  induction l with
  | nil => simp [lastFailure]
  | cons r rest ih =>
    cases h : lastFailure rest with
    | none =>
      have h2 := ih.mp h
      simp [lastFailure, h]
      intro _
      exact h2
    | some e =>
      simp only [lastFailure, h, List.mem_cons, forall_eq_or_imp]
      constructor
      · intro h0
        cases h0
      · intro hall
        rw [ih.mpr hall.2] at h
        cases h

theorem serializeCalls_writeLoop {W View : Type} (sys : Sys W) (ser : Serializer W View)
    (views : List View) : ∀ (w : W) (ws : List Writer) (writeErr : Option String),
    serializeCalls (writeLoop sys ser w ws writeErr views).2.2.2 = views := by
  induction views with
  | nil => intro w ws writeErr; rfl
  | cons v rest ih =>
    intro w ws writeErr
    simp only [writeLoop]
    cases (ser.Serialize w v).1.2 <;> simp [serializeCalls, ih]

theorem writeResults_writeLoop_length {W View : Type} (sys : Sys W) (ser : Serializer W View)
    (views : List View) : ∀ (w : W) (ws : List Writer) (writeErr : Option String),
    (writeResults (writeLoop sys ser w ws writeErr views).2.2.2).length = views.length := by
  induction views with
  | nil => intro w ws writeErr; rfl
  | cons v rest ih =>
    intro w ws writeErr
    simp only [writeLoop]
    cases (ser.Serialize w v).1.2 <;> simp [writeResults, ih]

theorem writeLoop_result {W View : Type} (sys : Sys W) (ser : Serializer W View)
    (views : List View) : ∀ (w : W) (ws : List Writer) (writeErr : Option String),
    (writeLoop sys ser w ws writeErr views).1 =
      match lastFailure (writeResults (writeLoop sys ser w ws writeErr views).2.2.2) with
      | some e => some ("E! [outputs.file] failed to write message: " ++ e)
      | none => writeErr := by
  induction views with
  | nil => intro w ws writeErr; rfl
  | cons v rest ih =>
    intro w ws writeErr
    simp only [writeLoop]
    rw [ih]
    cases hs : (ser.Serialize w v).1.2 <;>
      simp only [writeResults, List.nil_append, List.singleton_append, lastFailure] <;>
      (split <;> rename_i hl <;> simp only [hl])

/-! ### The loop of `Write`, call by call -/

theorem writeLoop_state {W View : Type} (sys : Sys W) (ser : Serializer W View)
    (views : List View) : ∀ (w : W) (ws : List Writer) (writeErr : Option String),
    ((writeLoop sys ser w ws writeErr views).2.2.1, (writeLoop sys ser w ws writeErr views).2.1) =
      stateAfterWrite sys ser (w, ws) views := by
  induction views with
  | nil => intro w ws writeErr; rfl
  | cons v rest ih =>
    intro w ws writeErr
    simp only [writeLoop, stateAfterWrite, List.foldl_cons, writeStep]
    exact ih _ _ _

theorem writeLoop_log_at {W View : Type} (sys : Sys W) (ser : Serializer W View)
    (pre : List View) : ∀ (w : W) (ws : List Writer) (writeErr : Option String) (v : View)
      (post : List View),
    (serializeLog (writeLoop sys ser w ws writeErr (pre ++ v :: post)).2.2.2)[pre.length]? =
      some (v, (ser.Serialize (stateAfterWrite sys ser (w, ws) pre).1 v).1) ∧
    (writeCalls (writeLoop sys ser w ws writeErr (pre ++ v :: post)).2.2.2)[pre.length]? =
      some (ser.Serialize (stateAfterWrite sys ser (w, ws) pre).1 v).1.1 ∧
    (writeResults (writeLoop sys ser w ws writeErr (pre ++ v :: post)).2.2.2)[pre.length]? =
      some (writeOutcome sys ser (stateAfterWrite sys ser (w, ws) pre) v) := by
  induction pre with
  | nil =>
    intro w ws writeErr v post
    simp only [List.nil_append, writeLoop, stateAfterWrite, List.foldl_nil, List.length_nil,
      writeOutcome]
    cases hs : (ser.Serialize w v).1.2 <;>
      simp [serializeLog, writeCalls, writeResults, Prod.ext_iff, hs]
  | cons p pre ih =>
    intro w ws writeErr v post
    rw [List.cons_append]
    simp only [writeLoop, stateAfterWrite, List.foldl_cons, List.length_cons, writeStep]
    cases (ser.Serialize w p).1.2 <;>
      simp only [serializeLog, writeCalls, writeResults, List.nil_append, List.singleton_append,
        List.getElem?_cons_succ] <;>
      exact ih _ _ _ v post

theorem writeLoop_keeps {W View : Type} (sys : Sys W) (ser : Serializer W View)
    (views : List View) : ∀ (w : W) (ws : List Writer) (writeErr : Option String),
    (∀ pre v post, views = pre ++ v :: post →
      writeOutcome sys ser (stateAfterWrite sys ser (w, ws) pre) v = none) →
    (writeLoop sys ser w ws writeErr views).1 = writeErr := by
  induction views with
  | nil => intro w ws writeErr _; rfl
  | cons v rest ih =>
    intro w ws writeErr h
    have h0 : (multiWrite sys (ser.Serialize w v).2 ws (ser.Serialize w v).1.1).1 = none :=
      h [] v rest rfl
    simp only [writeLoop, h0]
    apply ih
    intro pre v1 post hsplit
    have := h (v :: pre) v1 post (by rw [hsplit]; rfl)
    simpa [stateAfterWrite, writeStep] using this

theorem writeLoop_none {W View : Type} (sys : Sys W) (ser : Serializer W View)
    (views : List View) : ∀ (w : W) (ws : List Writer) (writeErr : Option String),
    (writeLoop sys ser w ws writeErr views).1 = none →
    writeErr = none ∧ ∀ pre v post, views = pre ++ v :: post →
      writeOutcome sys ser (stateAfterWrite sys ser (w, ws) pre) v = none := by
  induction views with
  | nil =>
    intro w ws writeErr h
    refine ⟨h, ?_⟩
    intro pre v post hsplit
    simp at hsplit
  | cons v rest ih =>
    intro w ws writeErr h
    simp only [writeLoop] at h
    obtain ⟨h1, h2⟩ := ih _ _ _ h
    have hc : (multiWrite sys (ser.Serialize w v).2 ws (ser.Serialize w v).1.1).1 = none ∧
        writeErr = none := by
      cases hm : (multiWrite sys (ser.Serialize w v).2 ws (ser.Serialize w v).1.1).1 with
      | none => simp only [hm] at h1; exact ⟨rfl, h1⟩
      | some e => simp [hm] at h1
    refine ⟨hc.2, ?_⟩
    intro pre v1 post hsplit
    cases pre with
    | nil =>
      simp only [List.nil_append, List.cons.injEq] at hsplit
      rw [← hsplit.1]
      exact hc.1
    | cons p pre =>
      simp only [List.cons_append, List.cons.injEq] at hsplit
      have := h2 pre v1 post hsplit.2
      rw [← hsplit.1]
      simpa [stateAfterWrite, writeStep] using this

theorem writeLoop_append {W View : Type} (sys : Sys W) (ser : Serializer W View)
    (pre rest : List View) : ∀ (w : W) (ws : List Writer) (writeErr : Option String),
    (writeLoop sys ser w ws writeErr (pre ++ rest)).1 =
      (writeLoop sys ser (stateAfterWrite sys ser (w, ws) pre).1
        (stateAfterWrite sys ser (w, ws) pre).2
        (writeLoop sys ser w ws writeErr pre).1 rest).1 := by
  induction pre with
  | nil => intro w ws writeErr; rfl
  | cons p pre ih =>
    intro w ws writeErr
    rw [List.cons_append]
    simp only [writeLoop, stateAfterWrite, List.foldl_cons, writeStep]
    exact ih _ _ _

theorem writeLoop_last {W View : Type} (sys : Sys W) (ser : Serializer W View) (w : W)
    (ws : List Writer) (writeErr : Option String) (pre post : List View) (v : View) (e : String)
    (hv : writeOutcome sys ser (stateAfterWrite sys ser (w, ws) pre) v = some e)
    (hlater : ∀ pre2 v2 post2, post = pre2 ++ v2 :: post2 →
      writeOutcome sys ser (stateAfterWrite sys ser (w, ws) (pre ++ v :: pre2)) v2 = none) :
    (writeLoop sys ser w ws writeErr (pre ++ v :: post)).1 =
      some ("E! [outputs.file] failed to write message: " ++ e) := by
  rw [writeLoop_append]
  have hv2 : (multiWrite sys (ser.Serialize (stateAfterWrite sys ser (w, ws) pre).1 v).2
      (stateAfterWrite sys ser (w, ws) pre).2
      (ser.Serialize (stateAfterWrite sys ser (w, ws) pre).1 v).1.1).1 = some e := hv
  simp only [writeLoop, hv2]
  apply writeLoop_keeps
  intro pre2 v2 post2 hsplit
  have := hlater pre2 v2 post2 hsplit
  simpa [stateAfterWrite, List.foldl_append, writeStep] using this


/-- C3: `File.Write` on a file output whose serializer and fan-out writer are set, for
every batch, serializer and behaviour of the writers. It returns (no nil dereference).
For every view of the batch, in order and whatever the earlier calls returned,
`Serialize` is called on the view in the world the iterations before it left, and the
fan-out writer is then called with the bytes `Serialize` returned: the world and the
writers after `Write` are those after all the iterations, and the calls recorded at each
position are these two calls with what they returned. The returned error is nil exactly
when none of these writer calls failed; when some failed, it is the error built from the
last one that failed. -/
theorem write_continues_and_reports_last_error {W View : Type} (sys : Sys W) (w : W)
    (files : List String) (closers : List Handle) (ser : Serializer W View)
    (ws : List Writer) (views : List View) :
    ∃ r, File.Write sys w ⟨files, some ws, closers, some ser⟩ views = some r ∧
      r.2.2.1 = (stateAfterWrite sys ser (w, ws) views).1 ∧
      r.2.1.writer = some (stateAfterWrite sys ser (w, ws) views).2 ∧
      r.2.1.Files = files ∧ r.2.1.closers = closers ∧
      serializeCalls r.2.2.2 = views ∧
      (writeResults r.2.2.2).length = views.length ∧
      (∀ pre v post, views = pre ++ v :: post →
        (serializeLog r.2.2.2)[pre.length]? =
          some (v, (ser.Serialize (stateAfterWrite sys ser (w, ws) pre).1 v).1) ∧
        (writeCalls r.2.2.2)[pre.length]? =
          some (ser.Serialize (stateAfterWrite sys ser (w, ws) pre).1 v).1.1 ∧
        (writeResults r.2.2.2)[pre.length]? =
          some (writeOutcome sys ser (stateAfterWrite sys ser (w, ws) pre) v)) ∧
      (r.1 = none ↔ ∀ pre v post, views = pre ++ v :: post →
        writeOutcome sys ser (stateAfterWrite sys ser (w, ws) pre) v = none) ∧
      (∀ pre v post e, views = pre ++ v :: post →
        writeOutcome sys ser (stateAfterWrite sys ser (w, ws) pre) v = some e →
        (∀ pre2 v2 post2, post = pre2 ++ v2 :: post2 →
          writeOutcome sys ser (stateAfterWrite sys ser (w, ws) (pre ++ v :: pre2)) v2 = none) →
        r.1 = some ("E! [outputs.file] failed to write message: " ++ e)) ∧
      (r.1 = none ↔ ∀ e ∈ writeResults r.2.2.2, e = none) ∧
      (∀ e, lastFailure (writeResults r.2.2.2) = some e →
        r.1 = some ("E! [outputs.file] failed to write message: " ++ e)) := by
  cases views with
  | nil =>
    refine ⟨_, rfl, rfl, rfl, rfl, rfl, rfl, rfl, ?_, ?_, ?_, ?_, ?_⟩
    · intro pre v post h
      simp at h
    · constructor
      · intro _ pre v post h
        simp at h
      · intro _
        rfl
    · intro pre v post e h
      simp at h
    · simp [writeResults]
    · intro e h
      simp [writeResults, lastFailure] at h
  | cons v rest =>
    have hst := writeLoop_state sys ser (v :: rest) w ws none
    refine ⟨_, rfl, ?_, ?_, ?_, ?_, ?_, ?_, ?_, ?_, ?_, ?_, ?_⟩
    · exact congrArg Prod.fst hst
    · exact congrArg some (congrArg Prod.snd hst)
    · rfl
    · rfl
    · exact serializeCalls_writeLoop sys ser (v :: rest) w ws none
    · exact writeResults_writeLoop_length sys ser (v :: rest) w ws none
    · intro pre v1 post hsplit
      show (serializeLog (writeLoop sys ser w ws none (v :: rest)).2.2.2)[pre.length]? = _ ∧
        (writeCalls (writeLoop sys ser w ws none (v :: rest)).2.2.2)[pre.length]? = _ ∧
        (writeResults (writeLoop sys ser w ws none (v :: rest)).2.2.2)[pre.length]? = _
      rw [hsplit]
      exact writeLoop_log_at sys ser pre w ws none v1 post
    · show (writeLoop sys ser w ws none (v :: rest)).1 = none ↔ _
      constructor
      · intro h
        exact (writeLoop_none sys ser (v :: rest) w ws none h).2
      · intro h
        exact writeLoop_keeps sys ser (v :: rest) w ws none h
    · intro pre v1 post e hsplit hv hlater
      show (writeLoop sys ser w ws none (v :: rest)).1 = _
      rw [hsplit]
      exact writeLoop_last sys ser w ws none pre post v1 e hv hlater
    · show (writeLoop sys ser w ws none (v :: rest)).1 = none ↔ _
      rw [writeLoop_result, ← lastFailure_eq_none]
      cases lastFailure (writeResults (writeLoop sys ser w ws none (v :: rest)).2.2.2) <;> simp
    · intro e h
      show (writeLoop sys ser w ws none (v :: rest)).1 = _
      rw [writeLoop_result]
      simp only [] at h
      rw [h]

/-- What the failing input of C1 shows holds for every batch: the fan-out writer is called
once per view, with exactly the bytes `Serialize` returned for it, whether or not that
`Serialize` call returned an error. -/
theorem writer_called_for_every_view {W View : Type} (sys : Sys W) (ser : Serializer W View)
    (views : List View) : ∀ (w : W) (ws : List Writer) (writeErr : Option String),
    writeCalls (writeLoop sys ser w ws writeErr views).2.2.2 =
      serializedBytes (writeLoop sys ser w ws writeErr views).2.2.2 ∧
    (writeCalls (writeLoop sys ser w ws writeErr views).2.2.2).length = views.length := by
  induction views with
  | nil => intro w ws writeErr; exact ⟨rfl, rfl⟩
  | cons v rest ih =>
    intro w ws writeErr
    simp only [writeLoop]
    cases (ser.Serialize w v).1.2 <;>
      simp only [writeCalls, serializedBytes, List.nil_append, List.singleton_append,
        List.length_cons, (ih _ _ _).1, and_self, true_and, add_left_inj] <;>
      (rw [← (ih _ _ _).1]; exact (ih _ _ _).2)

/-- C1, the code at the failing input: a file output connected to standard output gets a
batch of three views whose second view fails to serialize. `Write` still calls the
fan-out writer three times, the second time with whatever bytes the failed `Serialize`
returned: an empty write when it returned none, and the stray byte `63`, which reaches
standard output, when it returned one. -/
theorem write_calls_writer_after_failed_serialize :
    (File.Write Disk.sys Disk.empty
        (((File.fresh ["stdout"]).SetSerializer failOnTwo).Connect Disk.sys Disk.empty).2.1
        [1, 2, 3]).map
      (fun r => (r.1, writeCalls r.2.2.2)) = some (none, [[1], [], [3]]) ∧
    (File.Write Disk.sys Disk.empty
        (((File.fresh ["stdout"]).SetSerializer partialOnTwo).Connect Disk.sys Disk.empty).2.1
        [1, 2, 3]).map
      (fun r => (r.1, writeCalls r.2.2.2, r.2.2.1.out)) =
        some (none, [[1], [63], [3]], [1, 63, 3]) := by
  constructor <;> rfl


theorem closeLoop_calls {W : Type} (sys : Sys W) (cs : List Handle) :
    ∀ (w : W) (err : Option String), (closeLoop sys w err cs).2.2.map Prod.fst = cs := by
  induction cs with
  | nil => intro w err; rfl
  | cons c rest ih => intro w err; simp [closeLoop, ih]

theorem closeLoop_result {W : Type} (sys : Sys W) (cs : List Handle) :
    ∀ (w : W) (err : Option String),
    (closeLoop sys w err cs).1 =
      match lastFailure ((closeLoop sys w err cs).2.2.map Prod.snd) with
      | some e => some e
      | none => err := by
  induction cs with
  | nil => intro w err; rfl
  | cons c rest ih =>
    intro w err
    simp only [closeLoop, List.map_cons, lastFailure]
    rw [ih]
    split <;> rename_i hl <;> simp only [hl]

theorem stdout_not_mem_createdHandles (calls : List ConnectCall) :
    Handle.stdout ∉ createdHandles calls := by
  induction calls with
  | nil => simp [createdHandles]
  | cons c rest ih =>
    cases c with
    | Create path fd err =>
      cases fd <;> simp [createdHandles, ih]

theorem connectLoop_closers {W : Type} (sys : Sys W) (files : List String) :
    ∀ (w : W) (writers : List Writer) (closers : List Handle),
    (connectLoop sys w files writers closers).2.2.1 =
      closers ++ createdHandles (connectLoop sys w files writers closers).2.2.2.2 := by
  induction files with
  | nil => intro w writers closers; simp [connectLoop, createdHandles]
  | cons file rest ih =>
    intro w writers closers
    by_cases hf : file = "stdout"
    · simp only [connectLoop, hf, if_true]
      exact ih _ _ _
    · simp only [connectLoop, hf, if_false]
      cases hc : (sys.create w file).1 with
      | error e => simp [createdHandles]
      | ok fd =>
        simp only [createdHandles]
        rw [ih]
        simp

theorem closeLoop_world {W : Type} (sys : Sys W) (cs : List Handle) :
    ∀ (w : W) (err : Option String),
    (closeLoop sys w err cs).2.1 = worldAfterClose sys w cs := by
  induction cs with
  | nil => intro w err; rfl
  | cons c rest ih =>
    intro w err
    simp only [closeLoop, worldAfterClose, List.foldl_cons]
    exact ih _ _

theorem closeLoop_log_at {W : Type} (sys : Sys W) (pre : List Handle) :
    ∀ (w : W) (err : Option String) (c : Handle) (post : List Handle),
    (closeLoop sys w err (pre ++ c :: post)).2.2[pre.length]? =
      some (c, (sys.close (worldAfterClose sys w pre) c).1) := by
  induction pre with
  | nil => intro w err c post; simp [closeLoop, worldAfterClose]
  | cons p pre ih =>
    intro w err c post
    simp only [List.cons_append, closeLoop, List.length_cons, List.getElem?_cons_succ,
      worldAfterClose, List.foldl_cons]
    exact ih _ _ c post

/-- The loop of `Close` keeps the error it started with exactly when every close
succeeds. -/
theorem closeLoop_keeps {W : Type} (sys : Sys W) (cs : List Handle) :
    ∀ (w : W) (err : Option String),
    (∀ pre c post, cs = pre ++ c :: post →
      (sys.close (worldAfterClose sys w pre) c).1 = none) →
    (closeLoop sys w err cs).1 = err := by
  induction cs with
  | nil => intro w err _; rfl
  | cons c rest ih =>
    intro w err h
    have h0 : (sys.close w c).1 = none := h [] c rest rfl
    simp only [closeLoop, h0]
    apply ih
    intro pre c1 post hsplit
    have := h (c :: pre) c1 post (by rw [hsplit]; rfl)
    simpa [worldAfterClose] using this

theorem closeLoop_none {W : Type} (sys : Sys W) (cs : List Handle) :
    ∀ (w : W) (err : Option String), (closeLoop sys w err cs).1 = none →
    err = none ∧ ∀ pre c post, cs = pre ++ c :: post →
      (sys.close (worldAfterClose sys w pre) c).1 = none := by
  induction cs with
  | nil =>
    intro w err h
    refine ⟨h, ?_⟩
    intro pre c post hsplit
    simp at hsplit
  | cons c rest ih =>
    intro w err h
    simp only [closeLoop] at h
    obtain ⟨h1, h2⟩ := ih _ _ h
    have hc : (sys.close w c).1 = none ∧ err = none := by
      cases hcl : (sys.close w c).1 with
      | none => simp only [hcl] at h1; exact ⟨rfl, h1⟩
      | some e => simp [hcl] at h1
    refine ⟨hc.2, ?_⟩
    intro pre c1 post hsplit
    cases pre with
    | nil =>
      simp only [List.nil_append, List.cons.injEq] at hsplit
      rw [← hsplit.1]
      exact hc.1
    | cons p pre =>
      simp only [List.cons_append, List.cons.injEq] at hsplit
      have := h2 pre c1 post hsplit.2
      rw [← hsplit.1]
      simpa [worldAfterClose] using this

theorem closeLoop_append {W : Type} (sys : Sys W) (pre rest : List Handle) :
    ∀ (w : W) (err : Option String),
    (closeLoop sys w err (pre ++ rest)).1 =
      (closeLoop sys (worldAfterClose sys w pre) (closeLoop sys w err pre).1 rest).1 := by
  induction pre with
  | nil => intro w err; rfl
  | cons p pre ih =>
    intro w err
    simp only [List.cons_append, closeLoop, worldAfterClose, List.foldl_cons]
    exact ih _ _

theorem closeLoop_last {W : Type} (sys : Sys W) (w : W) (err : Option String)
    (pre post : List Handle) (c : Handle) (e : String)
    (hc : (sys.close (worldAfterClose sys w pre) c).1 = some e)
    (hlater : ∀ pre2 c2 post2, post = pre2 ++ c2 :: post2 →
      (sys.close (worldAfterClose sys w (pre ++ c :: pre2)) c2).1 = none) :
    (closeLoop sys w err (pre ++ c :: post)).1 = some e := by
  rw [closeLoop_append]
  simp only [closeLoop, hc]
  apply closeLoop_keeps
  intro pre2 c2 post2 hsplit
  have := hlater pre2 c2 post2 hsplit
  simpa [worldAfterClose, List.foldl_append] using this

theorem Opens.length_eq {W : Type} {sys : Sys W} {w w1 : W} {files : List String}
    {ws : List Writer} (h : Opens sys w files ws w1) : ws.length = files.length := by
  induction h with
  | nil w => rfl
  | stdout _ ih => simp [ih]
  | create _ _ _ ih => simp [ih]

theorem connectLoop_opens {W : Type} {sys : Sys W} {w w1 : W} {files : List String}
    {ws : List Writer} (h : Opens sys w files ws w1) :
    ∀ (writers : List Writer) (closers : List Handle),
    (connectLoop sys w files writers closers).1 = none ∧
    (connectLoop sys w files writers closers).2.1 = writers ++ ws ∧
    (connectLoop sys w files writers closers).2.2.1 = closers ++ ws.filterMap Writer.closer ∧
    (connectLoop sys w files writers closers).2.2.2.1 = w1 := by
  induction h with
  | nil w => intro writers closers; simp [connectLoop]
  | stdout _ ih =>
    intro writers closers
    obtain ⟨h1, h2, h3, h4⟩ := ih (writers ++ [Writer.osFile Handle.stdout]) closers
    simp only [connectLoop, if_true]
    refine ⟨h1, ?_, ?_, h4⟩
    · rw [h2]; simp
    · rw [h3]; simp [Writer.closer]
  | @create w0 w2 file fd rest ws0 hne hok _ ih =>
    intro writers closers
    obtain ⟨h1, h2, h3, h4⟩ := ih (writers ++ [Writer.bufio (NewWriter (Handle.created fd))])
      (closers ++ [Handle.created fd])
    simp only [connectLoop, hne, if_false, hok]
    refine ⟨h1, ?_, ?_, h4⟩
    · rw [h2]; simp
    · rw [h3]; simp [Writer.closer, NewWriter]

theorem connectLoop_fails {W : Type} {sys : Sys W} {w w1 : W} {pre : List String}
    {ws : List Writer} (h : Opens sys w pre ws w1) :
    ∀ (path : String) (post : List String) (e : String) (writers : List Writer)
      (closers : List Handle), path ≠ "stdout" → (sys.create w1 path).1 = .error e →
    (connectLoop sys w (pre ++ path :: post) writers closers).1 = some e ∧
    (connectLoop sys w (pre ++ path :: post) writers closers).2.2.1 =
      closers ++ ws.filterMap Writer.closer ∧
    (connectLoop sys w (pre ++ path :: post) writers closers).2.2.2.1 =
      (sys.create w1 path).2 := by
  induction h with
  | nil w =>
    intro path post e writers closers hne herr
    simp [connectLoop, hne, herr]
  | stdout _ ih =>
    intro path post e writers closers hne herr
    obtain ⟨h1, h3, h4⟩ := ih path post e (writers ++ [Writer.osFile Handle.stdout]) closers
      hne herr
    rw [List.cons_append]
    simp only [connectLoop, if_true]
    refine ⟨h1, ?_, h4⟩
    rw [h3]; simp [Writer.closer]
  | @create w0 w2 file fd rest ws0 hne0 hok _ ih =>
    intro path post e writers closers hne herr
    obtain ⟨h1, h3, h4⟩ := ih path post e
      (writers ++ [Writer.bufio (NewWriter (Handle.created fd))])
      (closers ++ [Handle.created fd]) hne herr
    rw [List.cons_append]
    simp only [connectLoop, hne0, if_false, hok]
    refine ⟨h1, ?_, h4⟩
    rw [h3]; simp [Writer.closer, NewWriter]

/-- The loop of `Connect` either gets a file from every `os.Create`, or there is a first
entry whose `os.Create` fails. -/
theorem opens_or_fails {W : Type} (sys : Sys W) (files : List String) :
    ∀ w : W, (∃ ws w1, Opens sys w files ws w1) ∨
      (∃ pre path post ws w1 e, files = pre ++ path :: post ∧ Opens sys w pre ws w1 ∧
        path ≠ "stdout" ∧ (sys.create w1 path).1 = .error e) := by
  induction files with
  | nil => intro w; exact Or.inl ⟨[], w, Opens.nil w⟩
  | cons file rest ih =>
    intro w
    by_cases hf : file = "stdout"
    · subst hf
      rcases ih w with ⟨ws, w1, h⟩ | ⟨pre, path, post, ws, w1, e, h1, h2, h3, h4⟩
      · exact Or.inl ⟨_, w1, Opens.stdout h⟩
      · exact Or.inr ⟨"stdout" :: pre, path, post, _, w1, e, by rw [h1]; rfl,
          Opens.stdout h2, h3, h4⟩
    · cases hc : (sys.create w file).1 with
      | error e => exact Or.inr ⟨[], file, rest, [], w, e, rfl, Opens.nil w, hf, hc⟩
      | ok fd =>
        rcases ih (sys.create w file).2 with ⟨ws, w1, h⟩ |
          ⟨pre, path, post, ws, w1, e, h1, h2, h3, h4⟩
        · exact Or.inl ⟨_, w1, Opens.create hf hc h⟩
        · exact Or.inr ⟨file :: pre, path, post, _, w1, e, by rw [h1]; rfl,
            Opens.create hf hc h2, h3, h4⟩


theorem connect_closers {W View : Type} (sys : Sys W) (w : W) (f : File W View) :
    (f.Connect sys w).2.1.closers = f.closers ++ createdHandles (f.Connect sys w).2.2.2 := by
  have h := connectLoop_closers sys (if f.Files.length = 0 then ["stdout"] else f.Files)
    w [] f.closers
  unfold File.Connect
  cases hr : (connectLoop sys w (if f.Files.length = 0 then ["stdout"] else f.Files) []
      f.closers).1 <;> simp only [hr] <;> exact h

/-- C6: `File.Close`, for every file output and every behaviour of the closers. `Close`
is called on every tracked closer exactly once, in the order of `closers`, each in the
world the closes before it left, whatever they returned: the world after `File.Close` is
the one after all the closes, and the call recorded at each position is the close of that
closer with what it returned. `File.Close` returns nil exactly when every one of these
closes returned nil, and otherwise the error of the last close that failed. `Connect`
never adds `os.Stdout` to the closers, so after `Connect` on a freshly constructed `File`
no call of `Close` is on `os.Stdout`. -/
theorem close_attempts_every_closer {W View : Type} (sys : Sys W) (w : W) (f : File W View) :
    (f.Close sys w).2.1 = worldAfterClose sys w f.closers ∧
    (f.Close sys w).2.2.map Prod.fst = f.closers ∧
    (∀ pre c post, f.closers = pre ++ c :: post →
      (f.Close sys w).2.2[pre.length]? =
        some (c, (sys.close (worldAfterClose sys w pre) c).1)) ∧
    ((f.Close sys w).1 = none ↔
      ∀ pre c post, f.closers = pre ++ c :: post →
        (sys.close (worldAfterClose sys w pre) c).1 = none) ∧
    (∀ pre c post e, f.closers = pre ++ c :: post →
      (sys.close (worldAfterClose sys w pre) c).1 = some e →
      (∀ pre2 c2 post2, post = pre2 ++ c2 :: post2 →
        (sys.close (worldAfterClose sys w (pre ++ c :: pre2)) c2).1 = none) →
      (f.Close sys w).1 = some e) ∧
    ((f.Close sys w).1 = none ↔ ∀ c ∈ (f.Close sys w).2.2, c.2 = none) ∧
    (f.Close sys w).1 = lastFailure ((f.Close sys w).2.2.map Prod.snd) ∧
    (∀ (w0 : W) (f0 : File W View), Handle.stdout ∉ f0.closers →
      Handle.stdout ∉ (f0.Connect sys w0).2.1.closers) ∧
    (∀ (w0 w1 : W) (files : List String),
      ∀ c ∈ (((File.fresh files : File W View).Connect sys w0).2.1.Close sys w1).2.2,
        c.1 ≠ Handle.stdout) := by
  have hres : (f.Close sys w).1 = lastFailure ((f.Close sys w).2.2.map Prod.snd) := by
    unfold File.Close
    rw [closeLoop_result]
    cases lastFailure ((closeLoop sys w none f.closers).2.2.map Prod.snd) <;> rfl
  have hkeep : ∀ (w0 : W) (f0 : File W View), Handle.stdout ∉ f0.closers →
      Handle.stdout ∉ (f0.Connect sys w0).2.1.closers := by
    intro w0 f0 h0
    rw [connect_closers]
    simp only [List.mem_append, not_or]
    exact ⟨h0, stdout_not_mem_createdHandles _⟩
  refine ⟨closeLoop_world sys f.closers w none, closeLoop_calls sys f.closers w none, ?_, ?_, ?_,
    ?_, hres, hkeep, ?_⟩
  · intro pre c post hsplit
    unfold File.Close
    rw [hsplit]
    exact closeLoop_log_at sys pre w none c post
  · constructor
    · intro h
      exact (closeLoop_none sys f.closers w none h).2
    · intro h
      exact closeLoop_keeps sys f.closers w none h
  · intro pre c post e hsplit hc hlater
    unfold File.Close
    rw [hsplit]
    exact closeLoop_last sys w none pre post c e hc hlater
  · rw [hres, lastFailure_eq_none]
    simp only [List.mem_map, Prod.exists, exists_eq_right, forall_exists_index]
    exact ⟨fun h c hc => h c.2 c.1 hc, fun h r x hx => h (x, r) hx⟩
  · intro w0 w1 files c hc heq
    have hmem : c.1 ∈ ((File.fresh files : File W View).Connect sys w0).2.1.closers := by
      have hcalls := closeLoop_calls sys
        ((File.fresh files : File W View).Connect sys w0).2.1.closers w1 none
      rw [← hcalls]
      exact List.mem_map_of_mem Prod.fst hc
    rw [heq] at hmem
    exact hkeep w0 (File.fresh files) (by simp [File.fresh]) hmem

/-- C7: `File.Connect` on a freshly constructed `File`, for every behaviour of
`os.Create`. Empty `Files` is replaced by `["stdout"]`. When every `os.Create` that the
loop calls returns a file, `Connect` returns nil, the fan-out writer is set to the writers
built for the entries of `Files`, one per entry in order (`os.Stdout` for `"stdout"`, an
empty buffered writer around the file `os.Create` returned for any other entry), the
closers are exactly the files behind the buffered writers, in order, and the world is the
one after the calls. When the entries before `path` got their files and `os.Create` on
`path` fails, `Connect` returns that error, made no call after it, keeps in the closers
the files created for the earlier entries, and leaves the fan-out writer nil. One of the
two always applies. For empty `Files` or `["stdout"]`, `Connect` returns nil without
touching the world, the writer is `os.Stdout` alone, no closer is tracked, and a following
`Close` returns nil and closes nothing. -/
theorem connect_on_fresh_file {W View : Type} (sys : Sys W) (w : W) (files : List String) :
    ((File.fresh files : File W View).Connect sys w).2.1.Files =
      (if files.length = 0 then ["stdout"] else files) ∧
    (∀ ws w1, Opens sys w (if files.length = 0 then ["stdout"] else files) ws w1 →
      ws.length = (if files.length = 0 then ["stdout"] else files).length ∧
      ((File.fresh files : File W View).Connect sys w).1 = none ∧
      ((File.fresh files : File W View).Connect sys w).2.1.writer = some ws ∧
      ((File.fresh files : File W View).Connect sys w).2.1.closers =
        ws.filterMap Writer.closer ∧
      ((File.fresh files : File W View).Connect sys w).2.2.1 = w1) ∧
    (∀ pre path post ws w1 e,
      (if files.length = 0 then ["stdout"] else files) = pre ++ path :: post →
      Opens sys w pre ws w1 → path ≠ "stdout" → (sys.create w1 path).1 = .error e →
      ((File.fresh files : File W View).Connect sys w).1 = some e ∧
      ((File.fresh files : File W View).Connect sys w).2.1.writer = none ∧
      ((File.fresh files : File W View).Connect sys w).2.1.closers =
        ws.filterMap Writer.closer ∧
      ((File.fresh files : File W View).Connect sys w).2.2.1 = (sys.create w1 path).2) ∧
    ((∃ ws w1, Opens sys w (if files.length = 0 then ["stdout"] else files) ws w1) ∨
      (∃ pre path post ws w1 e,
        (if files.length = 0 then ["stdout"] else files) = pre ++ path :: post ∧
        Opens sys w pre ws w1 ∧ path ≠ "stdout" ∧ (sys.create w1 path).1 = .error e)) ∧
    (files = [] ∨ files = ["stdout"] →
      ((File.fresh files : File W View).Connect sys w).1 = none ∧
      ((File.fresh files : File W View).Connect sys w).2.1.writer =
        some [Writer.osFile Handle.stdout] ∧
      ((File.fresh files : File W View).Connect sys w).2.1.closers = [] ∧
      ((File.fresh files : File W View).Connect sys w).2.2.1 = w ∧
      ∀ w1, (((File.fresh files : File W View).Connect sys w).2.1.Close sys w1).1 = none ∧
        (((File.fresh files : File W View).Connect sys w).2.1.Close sys w1).2.1 = w1) := by
  refine ⟨?_, ?_, ?_, opens_or_fails sys _ w, ?_⟩
  · unfold File.Connect
    cases hr : (connectLoop sys w
      (if (File.fresh files : File W View).Files.length = 0 then ["stdout"]
        else (File.fresh files : File W View).Files) []
      (File.fresh files : File W View).closers).1 <;> simp only [hr] <;> rfl
  · intro ws w1 hopen
    obtain ⟨h1, h2, h3, h4⟩ := connectLoop_opens hopen [] []
    refine ⟨hopen.length_eq, ?_, ?_, ?_, ?_⟩ <;>
      simp only [File.Connect, File.fresh, h1, h2, h3, h4, List.nil_append]
  · intro pre path post ws w1 e hsplit hopen hne herr
    obtain ⟨h1, h3, h4⟩ := connectLoop_fails hopen path post e [] [] hne herr
    rw [← hsplit] at h1 h3 h4
    refine ⟨?_, ?_, ?_, ?_⟩ <;>
      simp only [File.Connect, File.fresh, h1, h3, h4, List.nil_append]
  · intro h
    have key : ((File.fresh files : File W View).Connect sys w).1 = none ∧
        ((File.fresh files : File W View).Connect sys w).2.1.writer =
          some [Writer.osFile Handle.stdout] ∧
        ((File.fresh files : File W View).Connect sys w).2.1.closers = [] ∧
        ((File.fresh files : File W View).Connect sys w).2.2.1 = w := by
      rcases h with h | h <;> subst h <;> exact ⟨rfl, rfl, rfl, rfl⟩
    refine ⟨key.1, key.2.1, key.2.2.1, key.2.2.2, ?_⟩
    intro w1
    unfold File.Close
    rw [key.2.2.1]
    exact ⟨rfl, rfl⟩

/-- `Connect` at concrete files on the file system `Disk`: with `Files =
["stdout", "/tmp/a.log", "", "/tmp/b.log"]` the creation of the third entry fails; the
error is returned, the file created for `/tmp/a.log` stays tracked and stays on disk,
`/tmp/b.log` is never created and the writer stays nil. With the failing entry removed
`Connect` returns nil with three writers and two closers. -/
theorem connect_on_disk :
    ((File.fresh ["stdout", "/tmp/a.log", "", "/tmp/b.log"] : File Disk Nat).Connect
        Disk.sys Disk.empty).1 = some "open : no such file or directory" ∧
    ((File.fresh ["stdout", "/tmp/a.log", "", "/tmp/b.log"] : File Disk Nat).Connect
        Disk.sys Disk.empty).2.1.writer = none ∧
    ((File.fresh ["stdout", "/tmp/a.log", "", "/tmp/b.log"] : File Disk Nat).Connect
        Disk.sys Disk.empty).2.1.closers = [Handle.created 0] ∧
    ((File.fresh ["stdout", "/tmp/a.log", "", "/tmp/b.log"] : File Disk Nat).Connect
        Disk.sys Disk.empty).2.2.1.files = [("/tmp/a.log", [])] ∧
    ((File.fresh ["stdout", "/tmp/a.log", "/tmp/b.log"] : File Disk Nat).Connect
        Disk.sys Disk.empty).1 = none ∧
    ((File.fresh ["stdout", "/tmp/a.log", "/tmp/b.log"] : File Disk Nat).Connect
        Disk.sys Disk.empty).2.1.writer =
      some [Writer.osFile Handle.stdout, Writer.bufio (NewWriter (Handle.created 0)),
        Writer.bufio (NewWriter (Handle.created 1))] ∧
    ((File.fresh ["stdout", "/tmp/a.log", "/tmp/b.log"] : File Disk Nat).Connect
        Disk.sys Disk.empty).2.1.closers = [Handle.created 0, Handle.created 1] := by
  refine ⟨rfl, rfl, rfl, rfl, rfl, rfl, rfl⟩

/-- C2, the code at the failing input: after `Connect` on a fresh `File` with
`Files = ["/tmp/out.log"]`, one `Write` of records that all serialize successfully (one
record with the byte `97`, or three records with the bytes `97`, `98`, `99`), and
`Close`, all three calls return nil and the file exists but is empty: the bytes are still
in the `bufio.Writer`, which nothing flushes. -/
theorem buffered_bytes_never_reach_the_file :
    (connectWriteClose Disk.sys Disk.empty
        ((File.fresh ["/tmp/out.log"]).SetSerializer oneByte) [97]).map
      (fun r => (r.1, r.2.read "/tmp/out.log")) = some ((none, none, none), some []) ∧
    (connectWriteClose Disk.sys Disk.empty
        ((File.fresh ["/tmp/out.log"]).SetSerializer oneByte) [97, 98, 99]).map
      (fun r => (r.1, r.2.read "/tmp/out.log")) = some ((none, none, none), some []) := by
  constructor <;> rfl


/-! ### Batches that fit the buffer never leave it -/

theorem bufWrite_fits {W : Type} (sys : Sys W) (w : W) (h : Handle) (buf p : Bytes)
    (hfit : buf.length + p.length ≤ defaultBufSize) :
    BufWriter.Write sys w ⟨h, buf, none⟩ p = (none, ⟨h, buf ++ p, none⟩, w) := by
  have hc : ¬ (p.length > BufWriter.Available ⟨h, buf, none⟩ ∧
      (⟨h, buf, none⟩ : BufWriter).err = none) := by
    simp only [BufWriter.Available]
    omega
  simp only [BufWriter.Write, bufWriteLoop_done sys 2 w _ p hc]

theorem writeLoop_fits {W View : Type} (sys : Sys W) (enc : View → Bytes) (h : Handle)
    (views : List View) : ∀ (w : W) (buf : Bytes) (writeErr : Option String),
    buf.length + (views.map (fun v => (enc v).length)).sum ≤ defaultBufSize →
    (writeLoop sys ⟨fun d v => ((enc v, none), d)⟩ w [Writer.bufio ⟨h, buf, none⟩] writeErr
        views).1 = writeErr ∧
    (writeLoop sys ⟨fun d v => ((enc v, none), d)⟩ w [Writer.bufio ⟨h, buf, none⟩] writeErr
        views).2.1 = [Writer.bufio ⟨h, buf ++ (views.map enc).foldr (· ++ ·) [], none⟩] ∧
    (writeLoop sys ⟨fun d v => ((enc v, none), d)⟩ w [Writer.bufio ⟨h, buf, none⟩] writeErr
        views).2.2.1 = w := by
  induction views with
  | nil => intro w buf writeErr _; simp [writeLoop]
  | cons v rest ih =>
    intro w buf writeErr hfit
    simp only [List.map_cons, List.sum_cons] at hfit
    have hstep : multiWrite sys w [Writer.bufio ⟨h, buf, none⟩] (enc v) =
        (none, [Writer.bufio ⟨h, buf ++ enc v, none⟩], w) := by
      simp only [multiWrite, Writer.Write, bufWrite_fits sys w h buf (enc v) (by omega)]
    have hrest := ih w (buf ++ enc v) writeErr (by rw [List.length_append]; omega)
    simp only [writeLoop, hstep, List.map_cons, List.foldr_cons]
    rw [← List.append_assoc]
    exact hrest

/-- What the failing input of C2 shows holds for every batch that fits the buffer: with a
single path other than `"stdout"` and a serializer that never fails, whenever the
serialized records take at most 4096 bytes together, `Connect`, `Write` and `Close` all
return nil and the file is left empty. -/
theorem small_batches_never_reach_the_file {View : Type} (enc : View → Bytes) (path : String)
    (views : List View) (hpath : path ≠ "stdout") (hpath2 : path ≠ "")
    (hfit : (views.map (fun v => (enc v).length)).sum ≤ defaultBufSize) :
    (connectWriteClose Disk.sys Disk.empty
        ((File.fresh [path]).SetSerializer ⟨fun d v => ((enc v, none), d)⟩) views).map
      (fun r => (r.1, r.2.read path)) = some ((none, none, none), some []) := by
  have hconn : (File.Connect Disk.sys Disk.empty
      ((File.fresh [path] : File Disk View).SetSerializer ⟨fun d v => ((enc v, none), d)⟩)) =
      (none, ⟨[path], some [Writer.bufio ⟨Handle.created 0, [], none⟩], [Handle.created 0],
        some ⟨fun d v => ((enc v, none), d)⟩⟩,
        ⟨[(path, [])], [(path, true)], []⟩, [ConnectCall.Create path (some 0) none]) := by
    simp [File.Connect, File.fresh, File.SetSerializer, connectLoop, hpath, hpath2, Disk.sys,
      Disk.empty, Disk.store, NewWriter]
  cases views with
  | nil =>
    simp only [connectWriteClose, hconn, File.Write]
    simp [File.Close, closeLoop, Disk.sys, Disk.read]
  | cons v rest =>
    obtain ⟨h1, h2, h3⟩ := writeLoop_fits Disk.sys enc (Handle.created 0) (v :: rest)
      ⟨[(path, [])], [(path, true)], []⟩ [] none (by simpa using hfit)
    simp only [connectWriteClose, hconn, File.Write, h1, h3]
    simp [File.Close, closeLoop, Disk.sys, Disk.read]


/-! ### `config.go` -/

theorem lookup_filter_ne (fields : List (String × Node)) (key k : String) (h : k ≠ key) :
    (fields.filter (fun e => e.1 ≠ key)).lookup k = fields.lookup k := by
  induction fields with
  | nil => rfl
  | cons e rest ih =>
    obtain ⟨a, b⟩ := e
    by_cases ha : a = key
    · have hp : decide ((a, b).1 ≠ key) = false := by simp [ha]
      have hk : (k == a) = false := by rw [ha]; simpa using h
      rw [List.filter_cons_of_neg (by simp [ha]), ih, List.lookup_cons, hk]
    · rw [List.filter_cons_of_pos (by simp [ha]), List.lookup_cons, List.lookup_cons, ih]

theorem lookup_filter_self (fields : List (String × Node)) (key : String) :
    (fields.filter (fun e => e.1 ≠ key)).lookup key = none := by
  induction fields with
  | nil => rfl
  | cons e rest ih =>
    obtain ⟨a, b⟩ := e
    by_cases ha : a = key
    · rw [List.filter_cons_of_neg (by simp [ha]), ih]
    · have hk : (key == a) = false := by simpa using (Ne.symm ha)
      rw [List.filter_cons_of_pos (by simp [ha]), List.lookup_cons, hk, ih]

theorem Table.delete_Fields (tbl : Table) (key : String) :
    (tbl.delete key).Fields = tbl.Fields.filter (fun e => e.1 ≠ key) := by
  cases tbl; rfl

/-- C8: `buildSerializer`, for every plugin table `tbl`. The factory is called exactly
once, with a configuration whose `DataFormat` is the string stored under `data_format`
when that is a non-empty string key/value and `"json"` in every other case, and whose
`DataFormatTemplate` is the string stored under `data_format_template` when that is a
string key/value and `""` in every other case; what the factory returns is returned
unchanged; and in the table after the call, whatever the factory returned, neither
`data_format` nor `data_format_template` is a key while every other key maps to what it
mapped to before. -/
theorem buildSerializer_postcondition {Out Ser : Type} (env : Env Out Ser) (name : String)
    (tbl : Table) :
    ∃ cfg : SerializerConfig,
      (buildSerializer env name tbl).2.2 = [Call.NewSerializer cfg] ∧
      (buildSerializer env name tbl).1 = env.NewSerializer cfg ∧
      (∀ k s, tbl.Fields.lookup "data_format" = some (Node.keyValue k (Value.string s)) →
        s ≠ "" → cfg.DataFormat = s) ∧
      ((∀ k s, tbl.Fields.lookup "data_format" = some (Node.keyValue k (Value.string s)) →
        s = "") → cfg.DataFormat = "json") ∧
      (∀ k s, tbl.Fields.lookup "data_format_template" =
        some (Node.keyValue k (Value.string s)) → cfg.DataFormatTemplate = s) ∧
      ((∀ k s, tbl.Fields.lookup "data_format_template" ≠
        some (Node.keyValue k (Value.string s))) → cfg.DataFormatTemplate = "") ∧
      (buildSerializer env name tbl).2.1.Fields.lookup "data_format" = none ∧
      (buildSerializer env name tbl).2.1.Fields.lookup "data_format_template" = none ∧
      (∀ key, key ≠ "data_format" → key ≠ "data_format_template" →
        (buildSerializer env name tbl).2.1.Fields.lookup key = tbl.Fields.lookup key) ∧
      (buildSerializer env name tbl).2.1.Line = tbl.Line := by
  refine ⟨_, rfl, rfl, ?_, ?_, ?_, ?_, ?_, ?_, ?_, ?_⟩
  · intro k s h hs
    rcases hb : tbl.Fields.lookup "data_format_template" with _ | (_ | _ | ⟨k2, (s2 | r2)⟩) <;>
      simp [h, hs]
  · intro h
    rcases hb : tbl.Fields.lookup "data_format_template" with _ | (_ | _ | ⟨k2, (s2 | r2)⟩) <;>
      rcases ha : tbl.Fields.lookup "data_format" with _ | (_ | _ | ⟨k1, (s1 | r1)⟩) <;>
      first
        | (simp; done)
        | (have hs := h _ _ ha
           subst hs
           simp)
  · intro k s h
    rcases ha : tbl.Fields.lookup "data_format" with _ | (_ | _ | ⟨k1, (s1 | r1)⟩) <;>
      first | (simp [h]; done) | (simp [h]; split <;> rfl)
  · intro h
    rcases hb : tbl.Fields.lookup "data_format_template" with _ | (_ | _ | ⟨k2, (s2 | r2)⟩) <;>
      rcases ha : tbl.Fields.lookup "data_format" with _ | (_ | _ | ⟨k1, (s1 | r1)⟩) <;>
      first
        | exact absurd hb (h _ _)
        | (simp; done)
        | (simp; split <;> rfl)
  · show ((tbl.delete "data_format").delete "data_format_template").Fields.lookup _ = none
    rw [Table.delete_Fields, Table.delete_Fields, lookup_filter_ne _ _ _ (by decide),
      lookup_filter_self]
  · show ((tbl.delete "data_format").delete "data_format_template").Fields.lookup _ = none
    rw [Table.delete_Fields, lookup_filter_self]
  · intro key h1 h2
    show ((tbl.delete "data_format").delete "data_format_template").Fields.lookup _ = _
    rw [Table.delete_Fields, Table.delete_Fields, lookup_filter_ne _ _ _ h2,
      lookup_filter_ne _ _ _ h1]
  · cases tbl; rfl


/-- C9: `addTracker` on a tracker table that unmarshals successfully into `t`, for every
badge validator. With an empty badge it succeeds and appends exactly `t` with the badge
`"ZerØ|analytics|#00a5da"`; with a non-empty badge the validator accepts it succeeds and
appends `t` unchanged; with a non-empty badge the validator rejects it fails, the message
holds the expected format `<title>|<label>|<color>` and ends with the badge, and `c` is
unchanged. -/
theorem addTracker_badge {Out Ser : Type} (env : Env Out Ser) (c : Config Out) (table : Table)
    (t : Tracker) (h : env.unmarshalTracker table {} = (none, t)) :
    (t.Badge = "" →
      c.addTracker env table =
        (none, { c with Trackers := c.Trackers ++ [{ t with Badge := "ZerØ|analytics|#00a5da" }] })) ∧
    (t.Badge ≠ "" → env.validateBadgeSyntaxe t.Badge = true →
      c.addTracker env table = (none, { c with Trackers := c.Trackers ++ [t] })) ∧
    (t.Badge ≠ "" → env.validateBadgeSyntaxe t.Badge = false →
      c.addTracker env table =
        (some ("invalid badge format: expecting \"" ++ "<title>|<label>|<color>" ++ "\" got: " ++
          t.Badge), c)) := by
  refine ⟨?_, ?_, ?_⟩
  · intro hb
    simp [Config.addTracker, h, hb]
  · intro hb hv
    simp [Config.addTracker, h, hb, hv]
  · intro hb hv
    have hlit : "invalid badge format: expecting \"" ++ "<title>|<label>|<color>" ++ "\" got: " =
        "invalid badge format: expecting \"<title>|<label>|<color>\" got: " := by decide
    simp [Config.addTracker, h, hb, hv, hlit]

/-- C9 at concrete tables: a tracker without badge gets the default badge, the badge
`"MyApp|tracking|#ff0000"` is accepted by the validator of the spec and kept verbatim, and
the badge `"MyApp"` is rejected, leaving the configuration as it was. -/
theorem addTracker_badge_witness :
    (NewConfig : Config DemoOutput).addTracker (demoEnv twoTrackersDoc id)
        (trackerTable 1 "UA-1" "") =
      (none, { (NewConfig : Config DemoOutput) with
        Trackers := [⟨"UA-1", "ZerØ|analytics|#00a5da", []⟩] }) ∧
    (NewConfig : Config DemoOutput).addTracker (demoEnv twoTrackersDoc id)
        (trackerTable 2 "UA-2" "MyApp|tracking|#ff0000") =
      (none, { (NewConfig : Config DemoOutput) with
        Trackers := [⟨"UA-2", "MyApp|tracking|#ff0000", []⟩] }) ∧
    (NewConfig : Config DemoOutput).addTracker (demoEnv twoTrackersDoc id)
        (trackerTable 4 "UA-2" "MyApp") =
      (some "invalid badge format: expecting \"<title>|<label>|<color>\" got: MyApp",
        NewConfig) :=
  ⟨(addTracker_badge (demoEnv twoTrackersDoc id) NewConfig (trackerTable 1 "UA-1" "")
      ⟨"UA-1", "", []⟩ rfl).1 rfl,
    (addTracker_badge (demoEnv twoTrackersDoc id) NewConfig
      (trackerTable 2 "UA-2" "MyApp|tracking|#ff0000") ⟨"UA-2", "MyApp|tracking|#ff0000", []⟩
      rfl).2.1 (by decide) (by decide),
    (addTracker_badge (demoEnv twoTrackersDoc id) NewConfig (trackerTable 4 "UA-2" "MyApp")
      ⟨"UA-2", "MyApp", []⟩ rfl).2.2 (by decide) (by decide)⟩


theorem addOutput_unregistered {Out Ser : Type} (env : Env Out Ser) (c : Config Out)
    (name : String) (t : Table) (h : env.Outputs name = none) :
    c.addOutput env name t = (some ("undefined but requested output: " ++ name), c, []) := by
  simp [Config.addOutput, h]

/-- What `addOutput` does to `c` is to append what it would append to an empty
configuration; error and calls do not depend on `c`. -/
theorem addOutput_frame {Out Ser : Type} (env : Env Out Ser) (c : Config Out) (name : String)
    (t : Table) :
    c.addOutput env name t =
      (((NewConfig : Config Out).addOutput env name t).1,
        { c with Outputs := c.Outputs ++ ((NewConfig : Config Out).addOutput env name t).2.1.Outputs },
        ((NewConfig : Config Out).addOutput env name t).2.2) := by
  unfold Config.addOutput
  cases env.Outputs name with
  | none => simp [NewConfig]
  | some creator =>
    simp only
    split
    · simp [NewConfig]
    · split <;> simp [NewConfig]

theorem addOutput_failure {Out Ser : Type} (env : Env Out Ser) (c : Config Out) (name : String)
    (t : Table) (h : (c.addOutput env name t).1 ≠ none) : (c.addOutput env name t).2.1 = c := by
  revert h
  unfold Config.addOutput
  cases env.Outputs name with
  | none => simp
  | some creator =>
    simp only
    split
    · simp
    · split <;> simp

theorem addOutputs_spec {Out Ser : Type} (env : Env Out Ser) (name : String) (ts : List Table) :
    ∀ c : Config Out, ∃ outs,
      (addOutputs env name c ts).2.1 = { c with Outputs := c.Outputs ++ outs } ∧
      ((addOutputs env name c ts).1 = none →
        List.Forall₂ (builtFrom env) outs (ts.map (fun t => (name, t)))) := by
  induction ts with
  | nil => intro c; exact ⟨[], by simp [addOutputs], fun _ => List.Forall₂.nil⟩
  | cons t rest ih =>
    intro c
    have hf := addOutput_frame env c name t
    cases h1 : ((NewConfig : Config Out).addOutput env name t).1 with
    | some e =>
      refine ⟨[], ?_, ?_⟩
      · have hN : ((NewConfig : Config Out).addOutput env name t).2.1 = NewConfig :=
          addOutput_failure env NewConfig name t (by rw [h1]; simp)
        simp only [addOutputs]
        rw [hf]
        simp only [h1]
        rw [hN]
        simp [NewConfig]
      · simp only [addOutputs]
        rw [hf]
        simp [h1]
    | none =>
      obtain ⟨outs, h2, h3⟩ := ih (c.addOutput env name t).2.1
      have hone : ∃ o, ((NewConfig : Config Out).addOutput env name t).2.1.Outputs = [o] := by
        revert h1
        unfold Config.addOutput
        cases env.Outputs name with
        | none => simp
        | some creator =>
          simp only
          split
          · simp
          · split <;> simp [NewConfig]
      obtain ⟨o, ho⟩ := hone
      have h1c : (c.addOutput env name t).1 = none := by rw [hf, h1]
      refine ⟨o :: outs, ?_, ?_⟩
      · simp only [addOutputs, h1c]
        rw [h2, hf, ho]
        simp
      · intro hok
        simp only [addOutputs, h1c] at hok
        exact List.Forall₂.cons ⟨h1, ho⟩ (h3 hok)

theorem rangeOutputs_spec {Out Ser : Type} (env : Env Out Ser) (entries : List (String × Node)) :
    ∀ c : Config Out, ∃ outs,
      (rangeOutputs env c entries).2.1 = { c with Outputs := c.Outputs ++ outs } ∧
      ((rangeOutputs env c entries).1 = none →
        List.Forall₂ (builtFrom env) outs (elementTables entries)) := by
  induction entries with
  | nil => intro c; exact ⟨[], by simp [rangeOutputs], fun _ => List.Forall₂.nil⟩
  | cons e rest ih =>
    intro c
    obtain ⟨name, val⟩ := e
    cases val with
    | table t => exact ⟨[], by simp [rangeOutputs], by simp [rangeOutputs]⟩
    | keyValue k v => exact ⟨[], by simp [rangeOutputs], by simp [rangeOutputs]⟩
    | tables ts =>
      obtain ⟨outs1, h1, h2⟩ := addOutputs_spec env name ts c
      cases hr : (addOutputs env name c ts).1 with
      | some err =>
        exact ⟨outs1, by simp [rangeOutputs, hr, h1], by simp [rangeOutputs, hr]⟩
      | none =>
        obtain ⟨outs2, h3, h4⟩ := ih (addOutputs env name c ts).2.1
        refine ⟨outs1 ++ outs2, ?_, ?_⟩
        · simp only [rangeOutputs, hr]
          rw [h3, h1]
          simp
        · intro hok
          simp only [rangeOutputs, hr] at hok
          simp only [elementTables]
          exact List.rel_append (h2 hr) (h4 hok)

theorem rangeOutputs_append {Out Ser : Type} (env : Env Out Ser) (pre rest : List (String × Node)) :
    ∀ c : Config Out, (rangeOutputs env c pre).1 = none →
      rangeOutputs env c (pre ++ rest) =
        ((rangeOutputs env (rangeOutputs env c pre).2.1 rest).1,
          (rangeOutputs env (rangeOutputs env c pre).2.1 rest).2.1,
          (rangeOutputs env c pre).2.2 ++ (rangeOutputs env (rangeOutputs env c pre).2.1 rest).2.2) := by
  induction pre with
  | nil => intro c _; simp [rangeOutputs]
  | cons e pre ih =>
    intro c
    obtain ⟨name, val⟩ := e
    cases val with
    | table t => simp [rangeOutputs]
    | keyValue k v => simp [rangeOutputs]
    | tables ts =>
      cases hr : (addOutputs env name c ts).1 with
      | some err => simp [rangeOutputs, hr]
      | none =>
        rw [List.cons_append]
        simp only [rangeOutputs, hr]
        intro hok
        rw [ih _ hok]
        simp

theorem rangeOutputs_fails {Out Ser : Type} (env : Env Out Ser) (name : String) (t : Table)
    (ts : List Table) (post : List (String × Node)) (hname : env.Outputs name = none)
    (pre : List (String × Node)) :
    ∀ c : Config Out,
      (rangeOutputs env c (pre ++ (name, Node.tables (t :: ts)) :: post)).1 ≠ none := by
  induction pre with
  | nil =>
    intro c
    simp [rangeOutputs, addOutputs, addOutput_unregistered env c name t hname]
  | cons e pre ih =>
    intro c
    obtain ⟨n, val⟩ := e
    cases val with
    | table t => simp [rangeOutputs]
    | keyValue k v => simp [rangeOutputs]
    | tables ts1 =>
      cases hr : (addOutputs env n c ts1).1 with
      | some err => simp [rangeOutputs, hr]
      | none =>
        rw [List.cons_append]
        simp only [rangeOutputs, hr]
        exact ih _


/-- C10: an outputs section in which `range` reaches the entry of a plugin name that is
not a key of the registry, the earlier entries having been processed without error. For
the first element table under that name, `addOutput` fails with
`undefined but requested output: <name>`, invokes no creator and appends nothing;
`parseOutputsTable` fails with that message wrapped as `error parsing <name> array, ...`,
and its configuration and calls are those reached after the earlier entries. Whatever the
earlier entries do, `parseOutputsTable` fails on such a section, and `LoadConfig`, once the
global and trackers phases have succeeded, returns what `parseOutputsTable` returns. -/
theorem unregistered_output_fails {Out Ser : Type} (env : Env Out Ser) (c : Config Out)
    (tbl sub : Table) (pre post : List (String × Node)) (name : String) (t : Table)
    (ts : List Table)
    (houtputs : tbl.Fields.lookup "outputs" = some (Node.table sub))
    (horder : env.rangeOrder sub.Fields = pre ++ (name, Node.tables (t :: ts)) :: post)
    (hname : env.Outputs name = none)
    (hpre : (rangeOutputs env c pre).1 = none) :
    (∀ c1 : Config Out,
      c1.addOutput env name t = (some ("undefined but requested output: " ++ name), c1, [])) ∧
    c.parseOutputsTable env tbl =
      (some ("error parsing " ++ name ++ " array, " ++
          ("undefined but requested output: " ++ name)),
        (rangeOutputs env c pre).2.1, (rangeOutputs env c pre).2.2) ∧
    (∀ c1 : Config Out, (c1.parseOutputsTable env tbl).1 ≠ none) ∧
    (∀ (c0 cg : Config Out) (path data : String), env.ReadAll path = .ok data →
      env.Parse (env.ExpandEnv data) = .ok tbl → c0.parseGlobalTable env tbl = (none, cg) →
      cg.parseTrackersTable env tbl = (none, c) →
      c0.LoadConfig env path = c.parseOutputsTable env tbl) := by
  refine ⟨fun c1 => addOutput_unregistered env c1 name t hname, ?_, ?_, ?_⟩
  · simp only [Config.parseOutputsTable, houtputs, horder]
    rw [rangeOutputs_append env pre _ c hpre]
    simp [rangeOutputs, addOutputs, addOutput_unregistered env _ name t hname]
  · intro c1
    simp only [Config.parseOutputsTable, houtputs, horder]
    exact rangeOutputs_fails env name t ts post hname pre c1
  · intro c0 cg path data h1 h2 h3 h4
    simp [Config.LoadConfig, h1, h2, h3, h4]

/-- C10 at a concrete document: `http` is declared first and `nonexistent` second;
loading fails naming `nonexistent`, the `http` instance built before stays in `Outputs`,
and the only creator invoked is the one of `http`. -/
theorem unregistered_output_fails_witness :
    (NewConfig : Config DemoOutput).parseOutputsTable (demoEnv nonexistentDoc id)
        nonexistentDoc =
      (some "error parsing nonexistent array, undefined but requested output: nonexistent",
        { (NewConfig : Config DemoOutput) with Outputs := [⟨"http", "", 2⟩] },
        [Call.creator "http"]) :=
  (unregistered_output_fails (demoEnv nonexistentDoc id) NewConfig nonexistentDoc
    (.mk 1 [("http", Node.tables [.mk 2 []]), ("nonexistent", Node.tables [.mk 5 []])])
    [("http", Node.tables [.mk 2 []])] [] "nonexistent" (.mk 5 []) [] rfl rfl rfl rfl).2.1

/-- C5, counterexample. With `file` declared on line 2 and `http` on line 5, a `range` that
visits `http` first appends the instance of line 5 before the one of line 2. With `file`
on lines 2 and 8 and `http` on line 5 in between, the instances are appended in the line
order 2, 8, 5 or 5, 2, 8, whichever key `range` visits first. In each case loading
succeeds and the appended instances are not, position by position, the ones built from
the element tables in declaration order. -/
theorem outputs_not_in_declaration_order :
    (((NewConfig : Config DemoOutput).parseOutputsTable (demoEnv twoPluginsDoc List.reverse)
        twoPluginsDoc).1 = none ∧
      ((NewConfig : Config DemoOutput).parseOutputsTable (demoEnv twoPluginsDoc List.reverse)
        twoPluginsDoc).2.1.Outputs = [⟨"http", "", 5⟩, ⟨"file", "json", 2⟩] ∧
      ¬ List.Forall₂ (builtFrom (demoEnv twoPluginsDoc List.reverse))
        ((NewConfig : Config DemoOutput).parseOutputsTable (demoEnv twoPluginsDoc List.reverse)
          twoPluginsDoc).2.1.Outputs
        [("file", .mk 2 []), ("http", .mk 5 [])]) ∧
    (((NewConfig : Config DemoOutput).parseOutputsTable (demoEnv interleavedDoc id)
        interleavedDoc).1 = none ∧
      ((NewConfig : Config DemoOutput).parseOutputsTable (demoEnv interleavedDoc id)
        interleavedDoc).2.1.Outputs =
          [⟨"file", "json", 2⟩, ⟨"file", "json", 8⟩, ⟨"http", "", 5⟩] ∧
      ¬ List.Forall₂ (builtFrom (demoEnv interleavedDoc id))
        ((NewConfig : Config DemoOutput).parseOutputsTable (demoEnv interleavedDoc id)
          interleavedDoc).2.1.Outputs
        [("file", .mk 2 []), ("http", .mk 5 []), ("file", .mk 8 [])]) ∧
    (((NewConfig : Config DemoOutput).parseOutputsTable (demoEnv interleavedDoc List.reverse)
        interleavedDoc).1 = none ∧
      ((NewConfig : Config DemoOutput).parseOutputsTable (demoEnv interleavedDoc List.reverse)
        interleavedDoc).2.1.Outputs =
          [⟨"http", "", 5⟩, ⟨"file", "json", 2⟩, ⟨"file", "json", 8⟩] ∧
      ¬ List.Forall₂ (builtFrom (demoEnv interleavedDoc List.reverse))
        ((NewConfig : Config DemoOutput).parseOutputsTable (demoEnv interleavedDoc List.reverse)
          interleavedDoc).2.1.Outputs
        [("file", .mk 2 []), ("http", .mk 5 []), ("file", .mk 8 [])]) := by
  refine ⟨⟨rfl, rfl, ?_⟩, ⟨rfl, rfl, ?_⟩, ⟨rfl, rfl, ?_⟩⟩
  · intro h
    cases h with
    | cons hb _ => exact absurd hb.2 (by decide)
  · intro h
    cases h with
    | cons _ h2 =>
      cases h2 with
      | cons hb _ => exact absurd hb.2 (by decide)
  · intro h
    cases h with
    | cons hb _ => exact absurd hb.2 (by decide)

/-- C5, amended: on a successful `parseOutputsTable` the instances appended to
`Config.Outputs` correspond one to one, in order, to the element tables taken plugin
name by plugin name in the order in which `range` visits the names of the `Fields` map,
and inside one plugin name in slice (declaration) order: the i-th appended instance was
built from the i-th element table of that sequence, and nothing else of the
configuration changes. -/
theorem outputs_in_range_order {Out Ser : Type} (env : Env Out Ser) (c : Config Out)
    (tbl sub : Table) (houtputs : tbl.Fields.lookup "outputs" = some (Node.table sub))
    (hok : (c.parseOutputsTable env tbl).1 = none) :
    ∃ outs, (c.parseOutputsTable env tbl).2.1 = { c with Outputs := c.Outputs ++ outs } ∧
      List.Forall₂ (builtFrom env) outs (elementTables (env.rangeOrder sub.Fields)) := by
  simp only [Config.parseOutputsTable, houtputs] at hok ⊢
  obtain ⟨outs, h1, h2⟩ := rangeOutputs_spec env (env.rangeOrder sub.Fields) c
  exact ⟨outs, h1, h2 hok⟩

/-- C5, amended, at the document with `file` on lines 2 and 8 and `http` on line 5. -/
theorem outputs_in_range_order_witness :
    ∃ outs, ((NewConfig : Config DemoOutput).parseOutputsTable (demoEnv interleavedDoc id)
        interleavedDoc).2.1 =
        { (NewConfig : Config DemoOutput) with
          Outputs := (NewConfig : Config DemoOutput).Outputs ++ outs } ∧
      List.Forall₂ (builtFrom (demoEnv interleavedDoc id)) outs
        (elementTables ((demoEnv interleavedDoc id).rangeOrder
          [("file", Node.tables [.mk 2 [], .mk 8 []]), ("http", Node.tables [.mk 5 []])])) :=
  outputs_in_range_order (demoEnv interleavedDoc id) NewConfig interleavedDoc
    (.mk 1 [("file", Node.tables [.mk 2 [], .mk 8 []]), ("http", Node.tables [.mk 5 []])])
    rfl rfl


theorem addTracker_frame {Out Ser : Type} (env : Env Out Ser) (c : Config Out) (t : Table) :
    (c.addTracker env t).2.Global = c.Global ∧ (c.addTracker env t).2.Outputs = c.Outputs ∧
    (∃ ts, (c.addTracker env t).2.Trackers = c.Trackers ++ ts) ∧
    ((c.addTracker env t).1 ≠ none → (c.addTracker env t).2 = c) := by
  simp only [Config.addTracker]
  cases h : (env.unmarshalTracker t {}).1 with
  | some e => exact ⟨rfl, rfl, ⟨[], by simp⟩, fun _ => rfl⟩
  | none =>
    simp only
    split
    · exact ⟨rfl, rfl, ⟨_, rfl⟩, fun h => absurd rfl h⟩
    · split
      · exact ⟨rfl, rfl, ⟨[], by simp⟩, fun _ => rfl⟩
      · exact ⟨rfl, rfl, ⟨_, rfl⟩, fun h => absurd rfl h⟩

theorem addTrackers_frame {Out Ser : Type} (env : Env Out Ser) (ts : List Table) :
    ∀ c : Config Out, (addTrackers env c ts).2.Global = c.Global ∧
      (addTrackers env c ts).2.Outputs = c.Outputs ∧
      ∃ added, (addTrackers env c ts).2.Trackers = c.Trackers ++ added := by
  induction ts with
  | nil => intro c; exact ⟨rfl, rfl, [], by simp [addTrackers]⟩
  | cons t rest ih =>
    intro c
    obtain ⟨h1, h2, ⟨a1, h3⟩, h4⟩ := addTracker_frame env c t
    cases hr : (c.addTracker env t).1 with
    | some e =>
      simp only [addTrackers, hr]
      exact ⟨h1, h2, a1, h3⟩
    | none =>
      simp only [addTrackers, hr]
      obtain ⟨g1, g2, a2, g3⟩ := ih (c.addTracker env t).2
      exact ⟨g1.trans h1, g2.trans h2, a1 ++ a2, by rw [g3, h3, List.append_assoc]⟩

theorem addTrackers_append {Out Ser : Type} (env : Env Out Ser) (pre rest : List Table) :
    ∀ c : Config Out, (addTrackers env c pre).1 = none →
      addTrackers env c (pre ++ rest) = addTrackers env (addTrackers env c pre).2 rest := by
  induction pre with
  | nil => intro c _; rfl
  | cons t pre ih =>
    intro c
    rw [List.cons_append]
    cases hr : (c.addTracker env t).1 with
    | some e => simp [addTrackers, hr]
    | none =>
      simp only [addTrackers, hr]
      exact ih _

theorem parseTrackersTable_frame {Out Ser : Type} (env : Env Out Ser) (c : Config Out)
    (tbl : Table) :
    (c.parseTrackersTable env tbl).2.Global = c.Global ∧
      (c.parseTrackersTable env tbl).2.Outputs = c.Outputs ∧
      ∃ added, (c.parseTrackersTable env tbl).2.Trackers = c.Trackers ++ added := by
  unfold Config.parseTrackersTable
  rcases tbl.Fields.lookup "trackers" with _ | (_ | ts | _)
  · exact ⟨rfl, rfl, [], by simp⟩
  · exact ⟨rfl, rfl, [], by simp⟩
  · exact addTrackers_frame env ts c
  · exact ⟨rfl, rfl, [], by simp⟩

theorem parseOutputsTable_frame {Out Ser : Type} (env : Env Out Ser) (c : Config Out)
    (tbl : Table) :
    (c.parseOutputsTable env tbl).2.1.Global = c.Global ∧
      (c.parseOutputsTable env tbl).2.1.Trackers = c.Trackers ∧
      ∃ added, (c.parseOutputsTable env tbl).2.1.Outputs = c.Outputs ++ added := by
  unfold Config.parseOutputsTable
  rcases tbl.Fields.lookup "outputs" with _ | (sub | _ | _)
  · exact ⟨rfl, rfl, [], by simp⟩
  · obtain ⟨outs, h, _⟩ := rangeOutputs_spec env (env.rangeOrder sub.Fields) c
    simp only
    rw [h]
    exact ⟨rfl, rfl, outs, rfl⟩
  · exact ⟨rfl, rfl, [], by simp⟩
  · exact ⟨rfl, rfl, [], by simp⟩

theorem parseGlobalTable_frame {Out Ser : Type} (env : Env Out Ser) (c : Config Out)
    (tbl : Table) :
    (c.parseGlobalTable env tbl).2.Trackers = c.Trackers ∧
      (c.parseGlobalTable env tbl).2.Outputs = c.Outputs := by
  unfold Config.parseGlobalTable
  rcases tbl.Fields.lookup "global" with _ | (sub | _ | _)
  · exact ⟨rfl, rfl⟩
  · simp only
    split <;> exact ⟨rfl, rfl⟩
  · exact ⟨rfl, rfl⟩
  · exact ⟨rfl, rfl⟩

theorem addOutputs_append {Out Ser : Type} (env : Env Out Ser) (name : String)
    (pre rest : List Table) : ∀ c : Config Out, (addOutputs env name c pre).1 = none →
      addOutputs env name c (pre ++ rest) =
        ((addOutputs env name (addOutputs env name c pre).2.1 rest).1,
          (addOutputs env name (addOutputs env name c pre).2.1 rest).2.1,
          (addOutputs env name c pre).2.2 ++
            (addOutputs env name (addOutputs env name c pre).2.1 rest).2.2) := by
  induction pre with
  | nil => intro c _; simp [addOutputs]
  | cons t pre ih =>
    intro c
    rw [List.cons_append]
    cases hr : (c.addOutput env name t).1 with
    | some err => simp [addOutputs, hr]
    | none =>
      simp only [addOutputs, hr]
      intro hok
      rw [ih _ hok]
      simp

/-- When the loop over an outputs section fails at an element table, the earlier entries
and the earlier element tables of the same plugin having been processed without error,
the result is the wrapped error of that element and the configuration reached just before
it. -/
theorem rangeOutputs_fails_at {Out Ser : Type} (env : Env Out Ser) (c : Config Out)
    (pre post : List (String × Node)) (name : String) (ts1 ts2 : List Table) (t : Table)
    (e : String) (hpre : (rangeOutputs env c pre).1 = none)
    (hts1 : (addOutputs env name (rangeOutputs env c pre).2.1 ts1).1 = none)
    (ht : ((addOutputs env name (rangeOutputs env c pre).2.1 ts1).2.1.addOutput env name t).1 =
      some e) :
    (rangeOutputs env c (pre ++ (name, Node.tables (ts1 ++ t :: ts2)) :: post)).1 =
        some ("error parsing " ++ name ++ " array, " ++ e) ∧
      (rangeOutputs env c (pre ++ (name, Node.tables (ts1 ++ t :: ts2)) :: post)).2.1 =
        (addOutputs env name (rangeOutputs env c pre).2.1 ts1).2.1 := by
  have hfail := addOutput_failure env (addOutputs env name (rangeOutputs env c pre).2.1 ts1).2.1
    name t (by rw [ht]; simp)
  rw [rangeOutputs_append env pre _ c hpre]
  simp only [rangeOutputs]
  rw [addOutputs_append env name ts1 _ _ hts1]
  simp only [addOutputs, ht, hfail, and_self]

/-- C4, counterexample: on a document whose first tracker is valid and whose second has
a malformed badge, `parseTrackersTable` and `LoadConfig`, called on a new configuration,
fail and leave the first tracker in `c.Trackers`; on a document whose outputs section
declares `http` and then an unregistered plugin, `parseOutputsTable` fails and leaves the
`http` instance in `c.Outputs`: `c` is not what it was before the call. -/
theorem failed_load_leaves_partial_config :
    (NewConfig : Config DemoOutput).parseTrackersTable (demoEnv twoTrackersDoc id)
        twoTrackersDoc =
      (some ("error parsing trackers array, " ++
          "invalid badge format: expecting \"<title>|<label>|<color>\" got: MyApp"),
        { (NewConfig : Config DemoOutput) with
          Trackers := [⟨"UA-1", "ZerØ|analytics|#00a5da", []⟩] }) ∧
    ((NewConfig : Config DemoOutput).parseTrackersTable (demoEnv twoTrackersDoc id)
        twoTrackersDoc).2 ≠ NewConfig ∧
    ((NewConfig : Config DemoOutput).LoadConfig (demoEnv twoTrackersDoc id) "za.toml").1 =
      some ("error parsing trackers array, " ++
          "invalid badge format: expecting \"<title>|<label>|<color>\" got: MyApp") ∧
    ((NewConfig : Config DemoOutput).LoadConfig (demoEnv twoTrackersDoc id) "za.toml").2.1 ≠
      NewConfig ∧
    ((NewConfig : Config DemoOutput).parseOutputsTable (demoEnv nonexistentDoc id)
        nonexistentDoc).1 =
      some "error parsing nonexistent array, undefined but requested output: nonexistent" ∧
    ((NewConfig : Config DemoOutput).parseOutputsTable (demoEnv nonexistentDoc id)
        nonexistentDoc).2.1.Outputs = [⟨"http", "", 2⟩] ∧
    ((NewConfig : Config DemoOutput).parseOutputsTable (demoEnv nonexistentDoc id)
        nonexistentDoc).2.1 ≠ NewConfig := by
  refine ⟨by decide, by decide, by decide, by decide, by decide, by decide, by decide⟩


theorem LoadConfig_frame {Out Ser : Type} (env : Env Out Ser) (c : Config Out)
    (path : String) :
    ∃ ts os, (c.LoadConfig env path).2.1.Trackers = c.Trackers ++ ts ∧
      (c.LoadConfig env path).2.1.Outputs = c.Outputs ++ os := by
  unfold Config.LoadConfig
  cases env.ReadAll path with
  | error e => exact ⟨[], [], by simp, by simp⟩
  | ok data =>
    simp only
    cases env.Parse (env.ExpandEnv data) with
    | error e => exact ⟨[], [], by simp, by simp⟩
    | ok tbl =>
      simp only
      obtain ⟨g1, g2⟩ := parseGlobalTable_frame env c tbl
      cases hg : (c.parseGlobalTable env tbl).1 with
      | some e =>
        simp only
        exact ⟨[], [], by simp [g1], by simp [g2]⟩
      | none =>
        simp only
        obtain ⟨_, t2, ts, t3⟩ := parseTrackersTable_frame env (c.parseGlobalTable env tbl).2 tbl
        cases ht : ((c.parseGlobalTable env tbl).2.parseTrackersTable env tbl).1 with
        | some e =>
          simp only
          exact ⟨ts, [], by rw [t3, g1], by simp [t2, g2]⟩
        | none =>
          simp only
          obtain ⟨_, o2, os, o3⟩ := parseOutputsTable_frame env
            ((c.parseGlobalTable env tbl).2.parseTrackersTable env tbl).2 tbl
          exact ⟨ts, os, by rw [o2, t3, g1], by rw [o3, t2, g2]⟩

/-- C4, amended: a failed load is not rolled back; `c` keeps the progress made before the
failing element, and only that. A failing `addTracker` or `addOutput` leaves `c` as it
was (the failing element adds nothing). `parseGlobalTable` leaves `Trackers` and `Outputs`
alone, `parseTrackersTable` changes only `Trackers` and `parseOutputsTable` only
`Outputs`, and both only append, so that after `LoadConfig` the trackers and outputs `c`
held before come first. When `parseTrackersTable` fails at an element, `c` is the
configuration reached after the elements before it. When `parseOutputsTable` fails at an
element table, `c` is the configuration reached just before it: its `Outputs` are those
held before the call followed by the instances built, one by one and in order, from the
element tables processed before the failing one. `LoadConfig` leaves `c` unchanged when
the file cannot be read or parsed, and stops at the first failing phase: `c` is then what
that phase left, no later phase having run. -/
theorem failed_load_keeps_progress {Out Ser : Type} (env : Env Out Ser) (c : Config Out)
    (tbl : Table) (path : String) :
    (∀ t, (c.addTracker env t).1 ≠ none → (c.addTracker env t).2 = c) ∧
    (∀ name t, (c.addOutput env name t).1 ≠ none → (c.addOutput env name t).2.1 = c) ∧
    ((c.parseGlobalTable env tbl).2.Trackers = c.Trackers ∧
      (c.parseGlobalTable env tbl).2.Outputs = c.Outputs) ∧
    ((c.parseTrackersTable env tbl).2.Global = c.Global ∧
      (c.parseTrackersTable env tbl).2.Outputs = c.Outputs ∧
      ∃ added, (c.parseTrackersTable env tbl).2.Trackers = c.Trackers ++ added) ∧
    ((c.parseOutputsTable env tbl).2.1.Global = c.Global ∧
      (c.parseOutputsTable env tbl).2.1.Trackers = c.Trackers ∧
      ∃ added, (c.parseOutputsTable env tbl).2.1.Outputs = c.Outputs ++ added) ∧
    (∃ ts os, (c.LoadConfig env path).2.1.Trackers = c.Trackers ++ ts ∧
      (c.LoadConfig env path).2.1.Outputs = c.Outputs ++ os) ∧
    (∀ pre t post e, tbl.Fields.lookup "trackers" = some (Node.tables (pre ++ t :: post)) →
      (addTrackers env c pre).1 = none →
      ((addTrackers env c pre).2.addTracker env t).1 = some e →
      c.parseTrackersTable env tbl =
        (some ("error parsing trackers array, " ++ e), (addTrackers env c pre).2)) ∧
    (∀ sub pre name ts1 t ts2 post e,
      tbl.Fields.lookup "outputs" = some (Node.table sub) →
      env.rangeOrder sub.Fields = pre ++ (name, Node.tables (ts1 ++ t :: ts2)) :: post →
      (rangeOutputs env c pre).1 = none →
      (addOutputs env name (rangeOutputs env c pre).2.1 ts1).1 = none →
      ((addOutputs env name (rangeOutputs env c pre).2.1 ts1).2.1.addOutput env name t).1 =
        some e →
      (c.parseOutputsTable env tbl).1 = some ("error parsing " ++ name ++ " array, " ++ e) ∧
      (c.parseOutputsTable env tbl).2.1 =
        (addOutputs env name (rangeOutputs env c pre).2.1 ts1).2.1 ∧
      ∃ outs, (c.parseOutputsTable env tbl).2.1 = { c with Outputs := c.Outputs ++ outs } ∧
        List.Forall₂ (builtFrom env) outs
          (elementTables pre ++ ts1.map (fun t1 => (name, t1)))) ∧
    (∀ e, env.ReadAll path = .error e → c.LoadConfig env path = (some e, c, [])) ∧
    (∀ data e, env.ReadAll path = .ok data → env.Parse (env.ExpandEnv data) = .error e →
      c.LoadConfig env path = (some e, c, [])) ∧
    (∀ data, env.ReadAll path = .ok data → env.Parse (env.ExpandEnv data) = .ok tbl →
      (∀ e, (c.parseGlobalTable env tbl).1 = some e →
        c.LoadConfig env path = (some e, (c.parseGlobalTable env tbl).2, [])) ∧
      ((c.parseGlobalTable env tbl).1 = none →
        ∀ e, ((c.parseGlobalTable env tbl).2.parseTrackersTable env tbl).1 = some e →
          c.LoadConfig env path =
            (some e, ((c.parseGlobalTable env tbl).2.parseTrackersTable env tbl).2, [])) ∧
      ((c.parseGlobalTable env tbl).1 = none →
        ((c.parseGlobalTable env tbl).2.parseTrackersTable env tbl).1 = none →
          c.LoadConfig env path =
            ((c.parseGlobalTable env tbl).2.parseTrackersTable env tbl).2.parseOutputsTable
              env tbl)) := by
  refine ⟨fun t => (addTracker_frame env c t).2.2.2, fun name t => addOutput_failure env c name t,
    parseGlobalTable_frame env c tbl, parseTrackersTable_frame env c tbl,
    parseOutputsTable_frame env c tbl, LoadConfig_frame env c path, ?_, ?_, ?_, ?_, ?_⟩
  · intro pre t post e hl hpre ht
    have hfail := (addTracker_frame env (addTrackers env c pre).2 t).2.2.2 (by rw [ht]; simp)
    simp only [Config.parseTrackersTable, hl]
    rw [addTrackers_append env pre _ c hpre]
    simp only [addTrackers, ht, hfail]
  · intro sub pre name ts1 t ts2 post e hl horder hpre hts1 ht
    obtain ⟨h1, h2⟩ := rangeOutputs_fails_at env c pre post name ts1 ts2 t e hpre hts1 ht
    have hparse : c.parseOutputsTable env tbl =
        rangeOutputs env c (pre ++ (name, Node.tables (ts1 ++ t :: ts2)) :: post) := by
      simp only [Config.parseOutputsTable, hl, horder]
    rw [hparse]
    refine ⟨h1, h2, ?_⟩
    obtain ⟨outs0, g1, g2⟩ := rangeOutputs_spec env pre c
    obtain ⟨outs1, g3, g4⟩ := addOutputs_spec env name ts1 (rangeOutputs env c pre).2.1
    refine ⟨outs0 ++ outs1, ?_, List.rel_append (g2 hpre) (g4 hts1)⟩
    rw [h2, g3, g1]
    simp
  · intro e h
    simp [Config.LoadConfig, h]
  · intro data e h1 h2
    simp [Config.LoadConfig, h1, h2]
  · intro data h1 h2
    refine ⟨?_, ?_, ?_⟩
    · intro e hg
      simp [Config.LoadConfig, h1, h2, hg]
    · intro hg e ht
      simp [Config.LoadConfig, h1, h2, hg, ht]
    · intro hg ht
      simp [Config.LoadConfig, h1, h2, hg, ht]

end LabTrack
